import Mathlib

/-!
# ansibleGen: the project tree and its assembly

A shallow embedding of `ansibleGen/ansible_project.go`.  Go strings are Lean
strings, slices are lists, and the two ways the Go code can stop without a
result (no folder from the decoder, an index out of range) are the two errors
of `Except Fault`.
-/

namespace AnsibleGen

/-! ## Data model -/

/-- Modelled from the spec: the `File` type is declared outside
`ansible_project.go`; section 3 gives it a `Name` and a `Content`. -/
structure File where
  Name : String
  Content : String
  deriving DecidableEq, Repr

/-- Modelled from the spec: the `Folder` type is declared outside
`ansible_project.go`; section 3 gives it a `Name`, an ordered list of files
and an ordered list of child folders. -/
inductive Folder where
  | mk (Name : String) (Files : List File) (Folders : List Folder)
  deriving Repr

namespace Folder

/-- Field `Name` of a folder. -/
def Name : Folder → String
  | mk n _ _ => n

/-- Field `Files` of a folder. -/
def Files : Folder → List File
  | mk _ fs _ => fs

/-- Field `Folders` of a folder. -/
def Folders : Folder → List Folder
  | mk _ _ ds => ds

end Folder

/-- Modelled from the spec: the `AnsibleRole` type is declared outside
`ansible_project.go`; section 3 gives it a `Name` and a `TreeStructure`. -/
structure AnsibleRole where
  Name : String
  TreeStructure : Folder

/-- The aggregate `AnsibleProject` of the source. -/
structure AnsibleProject where
  Name : String
  CustomRoles : List AnsibleRole
  GalaxyRoles : List String
  TreeStructure : Folder
  RootDir : String

/-- The two ways assembly stops without a project: the decoder gives no folder
(the error `log.Fatalf` reports, or a document outside the fragment of YAML
modelled below), or a slice is indexed out of its range. -/
inductive Fault where
  | decode (msg : String)
  | indexOutOfRange (index len : Nat)
  deriving DecidableEq, Repr

/-! ## `strings.Split` with a one-character separator -/

/-- The pieces of `s` between the occurrences of `sep`; as `strings.Split`,
the result of an input without separator is the input alone, and empty pieces
are kept. -/
def splitOnChar (sep : Char) : List Char → List (List Char)
  | [] => [[]]
  | c :: cs =>
    if c = sep then [] :: splitOnChar sep cs
    else
      match splitOnChar sep cs with
      | [] => [[c]]
      | piece :: pieces => (c :: piece) :: pieces

/-! ## The block subset of YAML read by `yaml.Unmarshal`

The decoder of `gopkg.in/yaml.v2` is a library outside the repository.  The
model below reads the fragment of YAML the templates are written in: an
optional `---` line, then a block mapping with the keys `name`, `files` and
`folders`, block sequences introduced by `- `, plain one-line scalars, and
the line `...` that ends the document (`yaml.Unmarshal` decodes the first
document of its input only).  Every text outside the fragment is refused with
`Fault.decode`. -/

/-- Characters the YAML reader accepts and that are neither blanks other than
the space nor line breaks. -/
def isPrintable (c : Char) : Bool :=
  let n := c.toNat
  (0x20 ≤ n && n ≤ 0x7E) ||
  (0xA0 ≤ n && n ≤ 0xD7FF && n != 0x2028 && n != 0x2029) ||
  (0xE000 ≤ n && n ≤ 0xFFFD && n != 0xFEFF) ||
  (0x10000 ≤ n)

/-- The YAML indicator characters: none of them may start a plain scalar,
except that `-`, `?` and `:` may when a non-blank follows. -/
def indicators : List Char :=
  ['-', '?', ':', ',', '[', ']', '{', '}', '#', '&', '*', '!', '|', '>',
   '\x27', '\x22', '%', '@', '\x60']

/-- Whether `a` is somewhere in the text directly followed by `b`. -/
def hasPair (a b : Char) : List Char → Bool
  | [] => false
  | [_] => false
  | x :: y :: rest => (x == a && y == b) || hasPair a b (y :: rest)

/-- Whether a plain scalar may start the way `v` starts. -/
def plainStart : List Char → Bool
  | [] => false
  | [c] => c != ' ' && !indicators.contains c
  | c :: d :: _ =>
    c != ' ' && (!indicators.contains c || ((c == '-' || c == '?' || c == ':') && d != ' '))

/-- The text of a one-line plain scalar of a block mapping: printable, neither
starting nor ending with a space, not starting with an indicator, not ending
with a colon, and with neither `: ` (a mapping value) nor ` #` (a comment)
inside. -/
def isPlainText (v : List Char) : Bool :=
  v.all isPrintable && plainStart v &&
  v.getLast? != some ' ' && v.getLast? != some ':' &&
  !hasPair ':' ' ' v && !hasPair ' ' '#' v

/-- The spellings of the null value: the decoder leaves a string field empty
on them. -/
def isNullWord (v : List Char) : Bool :=
  v == ['~'] || v == ['n', 'u', 'l', 'l'] || v == ['N', 'u', 'l', 'l'] ||
  v == ['N', 'U', 'L', 'L']

/-- A plain scalar that decodes into a string field as its own text. -/
def isPlainScalar (s : String) : Bool :=
  isPlainText s.data && !isNullWord s.data

/-- The keys of the mappings the templates use. -/
inductive Key where
  | name
  | files
  | folders
  deriving DecidableEq, Repr

/-- One line of the document that is not blank: the column of its key, whether
`- ` opens a sequence entry right before the key, the key, and the scalar
after the colon (`none` for no value or the null value). -/
structure Line where
  indent : Nat
  dash : Bool
  key : Key
  value : Option (List Char)
  deriving DecidableEq, Repr

/-- The text after `p` when the text starts with `p`. -/
def stripLeading : List Char → List Char → Option (List Char)
  | [], s => some s
  | _ :: _, [] => none
  | p :: ps, c :: cs => if p = c then stripLeading ps cs else none

/-- The value after the colon of a `name` entry. -/
def parseValue (v : List Char) : Except Fault (Option (List Char)) :=
  if v.all (fun c => c == ' ') then .ok none
  else
    match v with
    | ' ' :: w =>
      if isPlainText w then .ok (if isNullWord w then none else some w)
      else .error (.decode "yaml: unsupported scalar")
    | _ => .error (.decode "yaml: unsupported scalar")

/-- The entry `key: value` at column `col`. -/
def parseEntry (col : Nat) (dash : Bool) (s : List Char) : Except Fault Line :=
  match stripLeading ['n', 'a', 'm', 'e', ':'] s with
  | some v => do
    let value ← parseValue v
    pure ⟨col, dash, .name, value⟩
  | none =>
    match stripLeading ['f', 'i', 'l', 'e', 's', ':'] s with
    | some v =>
      if v.all (fun c => c == ' ') then .ok ⟨col, dash, .files, none⟩
      else .error (.decode "yaml: unsupported value")
    | none =>
      match stripLeading ['f', 'o', 'l', 'd', 'e', 'r', 's', ':'] s with
      | some v =>
        if v.all (fun c => c == ' ') then .ok ⟨col, dash, .folders, none⟩
        else .error (.decode "yaml: unsupported value")
      | none => .error (.decode "yaml: unsupported line")

/-- One line of text: `none` for a blank line. -/
def parseLine (l : List Char) : Except Fault (Option Line) :=
  let col := (l.takeWhile (fun c => c == ' ')).length
  let rest := l.dropWhile (fun c => c == ' ')
  match rest with
  | [] => .ok none
  | '-' :: ' ' :: s => (parseEntry (col + 2) true s).map some
  | s => (parseEntry col false s).map some

/-- All the lines of a document, blank lines dropped. -/
def parseLines : List (List Char) → Except Fault (List Line)
  | [] => .ok []
  | l :: ls => do
    let line ← parseLine l
    let lines ← parseLines ls
    pure (match line with
      | none => lines
      | some x => x :: lines)

/-- The document without the blank lines and the `---` line that may open
it. -/
def dropDocumentStart : List (List Char) → List (List Char)
  | [] => []
  | l :: ls =>
    if l.all (fun c => c == ' ') then dropDocumentStart ls
    else if l = ['-', '-', '-'] then ls
    else l :: ls

/-- The lines of the first document: those before the line `...`, if any. -/
def takeDocument : List (List Char) → List (List Char)
  | [] => []
  | l :: ls => if l = ['.', '.', '.'] then [] else l :: takeDocument ls

/-- A folder mapping while it is read: the fields met so far. -/
structure Fields where
  name : Option String
  files : Option (List File)
  folders : Option (List Folder)

/-- The folder of the fields read; a field never met has its zero value. -/
def Fields.toFolder (x : Fields) : Folder :=
  .mk (x.name.getD "") (x.files.getD []) (x.folders.getD [])

/-- The string a scalar decodes to: the null value leaves it empty. -/
def scalarString : Option (List Char) → String
  | none => ""
  | some v => String.mk v

mutual

/-- The entries of a folder mapping whose keys are at column `col`; the
result holds the lines left after the mapping. -/
def parseFolder : Nat → Nat → Fields → List Line → Except Fault (Folder × List Line)
  | 0, _, _, _ => .error (.decode "yaml: out of fuel")
  | _ + 1, _, acc, [] => .ok (acc.toFolder, [])
  | fuel + 1, col, acc, l :: rest =>
    if l.dash then
      if l.indent < col + 2 then .ok (acc.toFolder, l :: rest)
      else .error (.decode "yaml: unsupported sequence entry")
    else if l.indent < col then .ok (acc.toFolder, l :: rest)
    else if col < l.indent then .error (.decode "yaml: bad indentation")
    else
      match l.key with
      | .name =>
        match acc.name with
        | some _ => .error (.decode "yaml: unsupported repeated key")
        | none => parseFolder fuel col { acc with name := some (scalarString l.value) } rest
      | .files =>
        match acc.files with
        | some _ => .error (.decode "yaml: unsupported repeated key")
        | none =>
          match parseFiles fuel col none rest with
          | .error e => .error e
          | .ok (fs, rest2) => parseFolder fuel col { acc with files := some fs } rest2
      | .folders =>
        match acc.folders with
        | some _ => .error (.decode "yaml: unsupported repeated key")
        | none =>
          match parseFolders fuel col none rest with
          | .error e => .error e
          | .ok (ds, rest2) => parseFolder fuel col { acc with folders := some ds } rest2

/-- The entries of the sequence of files under a `files` key at column `col`:
`seqCol` is the column of the dashes once the first entry is met. -/
def parseFiles : Nat → Nat → Option Nat → List Line → Except Fault (List File × List Line)
  | 0, _, _, _ => .error (.decode "yaml: out of fuel")
  | _ + 1, _, _, [] => .ok ([], [])
  | fuel + 1, col, seqCol, l :: rest =>
    if l.dash && col + 2 ≤ l.indent && (seqCol = none || seqCol = some l.indent) then
      match l.key with
      | .name =>
        match rest with
        | next :: _ =>
          if !next.dash && l.indent ≤ next.indent then
            .error (.decode "yaml: unsupported file entry")
          else
            match parseFiles fuel col (some l.indent) rest with
            | .error e => .error e
            | .ok (fs, rest2) => .ok (⟨scalarString l.value, ""⟩ :: fs, rest2)
        | [] => .ok ([⟨scalarString l.value, ""⟩], [])
      | _ => .error (.decode "yaml: unsupported file entry")
    else if l.dash && (seqCol.any (fun c => c < l.indent)) then
      .error (.decode "yaml: bad indentation")
    else .ok ([], l :: rest)

/-- The entries of the sequence of folders under a `folders` key at column
`col`: `seqCol` is the column of the dashes once the first entry is met. -/
def parseFolders : Nat → Nat → Option Nat → List Line → Except Fault (List Folder × List Line)
  | 0, _, _, _ => .error (.decode "yaml: out of fuel")
  | _ + 1, _, _, [] => .ok ([], [])
  | fuel + 1, col, seqCol, l :: rest =>
    if l.dash && col + 2 ≤ l.indent && (seqCol = none || seqCol = some l.indent) then
      match parseFolder fuel l.indent ⟨none, none, none⟩ ({ l with dash := false } :: rest) with
      | .error e => .error e
      | .ok (d, rest2) =>
        match parseFolders fuel col (some l.indent) rest2 with
        | .error e => .error e
        | .ok (ds, rest3) => .ok (d :: ds, rest3)
    else if l.dash && (seqCol.any (fun c => c < l.indent)) then
      .error (.decode "yaml: bad indentation")
    else .ok ([], l :: rest)

end

/-- The call `yaml.Unmarshal(text, &dst)` with `dst` a `Folder`: the folder
decoded from the first document of the text, or no folder. -/
def yamlUnmarshal (text : String) : Except Fault Folder := do
  let lines ← parseLines (takeDocument (dropDocumentStart (splitOnChar '\n' text.data)))
  match parseFolder (3 * lines.length + 3) 0 ⟨none, none, none⟩ lines with
  | .error e => .error e
  | .ok (d, []) => .ok d
  | .ok (_, _ :: _) => .error (.decode "yaml: unsupported document")

/-! ## Roles -/

/-- Modelled from the spec: `NewAnsibleRole` is defined outside
`ansible_project.go`.  Sections 3, 4.4 and 8 say that a role keeps the name it
was declared with and owns one sub-tree, named after the role, with the
conventional role layout (tasks, handlers, templates, vars, defaults, meta). -/
def NewAnsibleRole (roleName : String) : AnsibleRole :=
  { Name := roleName
    TreeStructure :=
      .mk roleName []
        [.mk "tasks" [] [], .mk "handlers" [] [], .mk "templates" [] [],
         .mk "vars" [] [], .mk "defaults" [] [], .mk "meta" [] []] }

/-! ## `ansible_project.go` -/

/-- The function `splitRoles`: no name for the empty string, else the pieces
between the commas. -/
def splitRoles (roles : String) : List String :=
  if roles.length = 0 then []
  else (splitOnChar ',' roles.data).map String.mk

/-- The function `splitCustomRoles`: one role per name, in order. -/
def splitCustomRoles (customRoles : String) : List AnsibleRole :=
  (splitRoles customRoles).foldl (fun roles roleName => roles ++ [NewAnsibleRole roleName]) []

/-- The text `getProjectTreeTemplate` hands to the decoder. -/
def projectTemplate (projectName : String) : String :=
  "\n---\nname: " ++ projectName ++ "\nfiles:\n- name: ansible.cfg\nfolders:\n- name: playbooks\n- name: inventories\n  folders:\n  - name: dev\n    folders:\n    - name: group_vars\n      files:\n      - name: group1.yml\n      - name: group2.yml\n    - name: host_vars\n      files:\n      - name: host1.yml\n      - name: host2.yml\n  - name: production\n    folders:\n    - name: group_vars\n      files:\n      - name: group1.yml\n      - name: group2.yml\n    - name: host_vars\n      files:\n      - name: host1.yml\n      - name: host2.yml\n  - name: staging\n    folders:\n    - name: group_vars\n      files:\n      - name: group1.yml\n      - name: group2.yml\n    - name: host_vars\n      files:\n      - name: host1.yml\n      - name: host2.yml\n- name: roles\n"

/-- The function `getProjectTreeTemplate`: the template decoded, or the error
of a failed decode. -/
def getProjectTreeTemplate (projectName : String) : Except Fault Folder :=
  yamlUnmarshal (projectTemplate projectName)

/-- The loop of `rolesFolderIndex`: the index of the first folder of the name,
and 0 once the folders are exhausted. -/
def rolesFolderIndexFrom (rolesFolderName : String) : Nat → List Folder → Nat
  | _, [] => 0
  | index, folder :: rest =>
    if folder.Name = rolesFolderName then index
    else rolesFolderIndexFrom rolesFolderName (index + 1) rest

/-- The method `rolesFolderIndex`. -/
def rolesFolderIndex (project : AnsibleProject) (rolesFolderName : String) : Nat :=
  rolesFolderIndexFrom rolesFolderName 0 project.TreeStructure.Folders

/-- The method `addRolesToTreeStructure`: the sub-tree of each custom role is
appended, in order, to the children of the top-level folder at the index
`rolesFolderIndex` gives; the index is checked as Go checks it. -/
def addRolesToTreeStructure (project : AnsibleProject) : Except Fault AnsibleProject :=
  let rolesIndex := rolesFolderIndex project "roles"
  match project.TreeStructure with
  | .mk name files folders =>
    match folders.get? rolesIndex with
    | none => .error (.indexOutOfRange rolesIndex folders.length)
    | some (.mk rolesName rolesFiles rolesFolders) =>
      let rolesFolder : Folder :=
        .mk rolesName rolesFiles
          (project.CustomRoles.foldl (fun ds role => ds ++ [role.TreeStructure]) rolesFolders)
      .ok { project with TreeStructure := .mk name files (folders.set rolesIndex rolesFolder) }

/-- The method `addGalaxyRoles`: with at least one galaxy role, the manifest
`galaxy-roles.yml` is appended to the files of the root. -/
def addGalaxyRoles (project : AnsibleProject) : AnsibleProject :=
  if project.GalaxyRoles.length > 0 then
    let fileContent :=
      project.GalaxyRoles.foldl (fun content role => content ++ ("- " ++ role ++ "\n")) "---\n"
    let galaxyRolesFile : File := { Name := "galaxy-roles.yml", Content := fileContent }
    match project.TreeStructure with
    | .mk name files folders =>
      { project with TreeStructure := .mk name (files ++ [galaxyRolesFile]) folders }
  else project

/-- The function `NewAnsibleProject`; `cwd` is what `os.Getwd` returns. -/
def NewAnsibleProject (cwd name customRoles galaxyRoles : String) :
    Except Fault AnsibleProject := do
  let tree ← getProjectTreeTemplate name
  let ap : AnsibleProject :=
    { Name := name
      CustomRoles := splitCustomRoles customRoles
      GalaxyRoles := splitRoles galaxyRoles
      TreeStructure := tree
      RootDir := cwd }
  let ap ← addRolesToTreeStructure ap
  pure (addGalaxyRoles ap)

/-! ## The tree the template describes -/

/-- The text of the project template after the line of the name. -/
def templateRest : String :=
  "files:\n- name: ansible.cfg\nfolders:\n- name: playbooks\n- name: inventories\n  folders:\n  - name: dev\n    folders:\n    - name: group_vars\n      files:\n      - name: group1.yml\n      - name: group2.yml\n    - name: host_vars\n      files:\n      - name: host1.yml\n      - name: host2.yml\n  - name: production\n    folders:\n    - name: group_vars\n      files:\n      - name: group1.yml\n      - name: group2.yml\n    - name: host_vars\n      files:\n      - name: host1.yml\n      - name: host2.yml\n  - name: staging\n    folders:\n    - name: group_vars\n      files:\n      - name: group1.yml\n      - name: group2.yml\n    - name: host_vars\n      files:\n      - name: host1.yml\n      - name: host2.yml\n- name: roles\n"

/-- The two folders of variables of one inventory. -/
def inventoryVars : List Folder :=
  [.mk "group_vars" [⟨"group1.yml", ""⟩, ⟨"group2.yml", ""⟩] [],
   .mk "host_vars" [⟨"host1.yml", ""⟩, ⟨"host2.yml", ""⟩] []]

/-- The folder `inventories` of the template. -/
def inventories : Folder :=
  .mk "inventories" []
    [.mk "dev" [] inventoryVars, .mk "production" [] inventoryVars,
     .mk "staging" [] inventoryVars]

/-- The project tree with the given files at the root and the given children
of the folder `roles`. -/
def projectTree (projectName : String) (rootFiles : List File) (roles : List Folder) :
    Folder :=
  .mk projectName rootFiles [.mk "playbooks" [] [], inventories, .mk "roles" [] roles]

/-- The sub-trees of the roles a custom-roles string declares. -/
def roleTrees (customRoles : String) : List Folder :=
  (splitRoles customRoles).map (fun r => (NewAnsibleRole r).TreeStructure)

/-- The content of the manifest of the given galaxy roles. -/
def manifestContent (roles : List String) : String :=
  String.join ("---\n" :: roles.map (fun r => "- " ++ r ++ "\n"))

/-- The files of the root of an assembled project. -/
def rootFiles (galaxyRoles : String) : List File :=
  if galaxyRoles.length = 0 then [⟨"ansible.cfg", ""⟩]
  else [⟨"ansible.cfg", ""⟩, ⟨"galaxy-roles.yml", manifestContent (splitRoles galaxyRoles)⟩]

/-! ## Walking a tree -/

mutual

/-- Every folder of a tree, the root first. -/
def Folder.allFolders : Folder → List Folder
  | .mk n fs ds => .mk n fs ds :: allFoldersOf ds

/-- Every folder of the trees of a list. -/
def allFoldersOf : List Folder → List Folder
  | [] => []
  | d :: ds => d.allFolders ++ allFoldersOf ds

end

mutual

/-- Every file of a tree. -/
def Folder.allFiles : Folder → List File
  | .mk _ fs ds => fs ++ allFilesOf ds

/-- Every file of the trees of a list. -/
def allFilesOf : List Folder → List File
  | [] => []
  | d :: ds => d.allFiles ++ allFilesOf ds

end

/-- Whether a name holds a path separator (`/`, or the backslash of
Windows). -/
def hasPathSeparator (s : String) : Bool :=
  s.data.any (fun c => c == '/' || c == '\x5c')

/-- A name fit for a directory entry: not empty, no path separator. -/
def isEntryName (s : String) : Bool :=
  s != "" && !hasPathSeparator s

/-! ## Materialization -/

/-- Modelled from the spec: the filesystem behind `afero.Fs` (section 6), as
the directories it holds and the files with their content. -/
structure FileSystem where
  dirs : List String
  files : List (String × String)
  deriving DecidableEq, Repr

/-- Modelled from the spec: directory creation, a pre-existing directory being
no error (section 4.5). -/
def FileSystem.MkdirAll (fs : FileSystem) (path : String) : FileSystem :=
  if path ∈ fs.dirs then fs else { fs with dirs := fs.dirs ++ [path] }

/-- Modelled from the spec: a file is written with its content, created or
truncated as needed (section 4.5). -/
def FileSystem.WriteFile (fs : FileSystem) (path content : String) : FileSystem :=
  { fs with files := fs.files.filter (fun e => e.1 != path) ++ [(path, content)] }

/-- What a run leaves behind: the filesystem and the lines printed. -/
structure World where
  fs : FileSystem
  stdout : List String
  deriving DecidableEq, Repr

/-- Modelled from the spec: the files of one folder are written below `dir`
unless the run is dry (section 4.5). -/
def writeFiles (dir : String) (dryRun : Bool) : List File → FileSystem → FileSystem
  | [], fs => fs
  | f :: rest, fs =>
    writeFiles dir dryRun rest
      (if dryRun then fs else fs.WriteFile (dir ++ "/" ++ f.Name) f.Content)

mutual

/-- Modelled from the spec: `WriteTreeToDisk` is defined outside
`ansible_project.go`.  Section 4.5: the path of the folder is `baseDir/name`;
unless the run is dry the directory is created and each file written; every
child folder is visited with the new path as base, dry run or not. -/
def WriteTreeToDisk (basePath : String) :
    Folder → FileSystem → Bool → String → FileSystem
  | .mk name files folders, fs, dryRun, rootDir =>
    let newPath := basePath ++ "/" ++ name
    let fs1 := if dryRun then fs else fs.MkdirAll newPath
    writeFolders newPath folders (writeFiles newPath dryRun files fs1) dryRun rootDir

/-- Modelled from the spec: the child folders are materialized one after the
other. -/
def writeFolders (basePath : String) :
    List Folder → FileSystem → Bool → String → FileSystem
  | [], fs, _, _ => fs
  | d :: ds, fs, dryRun, rootDir =>
    writeFolders basePath ds (WriteTreeToDisk basePath d fs dryRun rootDir) dryRun rootDir

end

/-- The method `Save`: two lines are printed around the materialization of the
tree under `RootDir`. -/
def Save (project : AnsibleProject) (dryRun : Bool) (w : World) : World :=
  { fs := WriteTreeToDisk project.RootDir project.TreeStructure w.fs dryRun project.RootDir
    stdout := w.stdout ++
      ["Using root directory:  " ++ project.RootDir ++ "\n",
       "Ansible project " ++ project.Name ++ " has been generated\n"] }

/-! ## Version control -/

/-- The two things `InitGit` asks of its host: `filepath.Join` of two path
elements, and the run of an external command, which gives the error of a
failed run or nothing. -/
structure Host where
  joinPath : String → String → String
  execRun : String → List String → Option String

/-- What a call of `InitGit` leaves behind: the external commands run, each
with its arguments, the lines printed to the standard output and to the
standard error, and the exit status when the process is ended. -/
structure Effects where
  commands : List (String × List String)
  stdout : List String
  stderr : List String
  exitCode : Option Nat
  deriving DecidableEq, Repr

/-- The method `InitGit`: unless the run is dry, `git init` is run on the
path of the project, and its failure is printed to the standard error before
the process exits with status 1; otherwise the confirmation is printed. -/
def InitGit (host : Host) (project : AnsibleProject) (dryRun : Bool) : Effects :=
  if !dryRun then
    let cmd := "git"
    let args := ["init", host.joinPath project.RootDir project.Name]
    match host.execRun cmd args with
    | some err =>
      { commands := [(cmd, args)], stdout := [], stderr := [err ++ "\n"], exitCode := some 1 }
    | none =>
      { commands := [(cmd, args)]
        stdout := ["Successfully initialized a Git repository for the project\n"]
        stderr := [], exitCode := none }
  else
    { commands := []
      stdout := ["Successfully initialized a Git repository for the project\n"]
      stderr := [], exitCode := none }

/-! ## Joining and lines -/

/-- The function `strings.Join` with a one-string separator. -/
def stringsJoin (elems : List String) (sep : String) : String :=
  sep.intercalate elems

/-- The lines of a text: the pieces its line breaks end, and the piece after
the last line break when it is not empty. -/
def linesOf (text : String) : List String :=
  let pieces := splitOnChar '\n' text.data
  (if pieces.getLast? = some [] then pieces.dropLast else pieces).map String.mk

/-! ## Splitting -/

theorem splitOnChar_append (sep : Char) (a b : List Char) (h : sep ∉ a) :
    splitOnChar sep (a ++ sep :: b) = a :: splitOnChar sep b := by
  induction a with
  | nil => simp [splitOnChar]
  | cons c cs ih =>
    have hc : c ≠ sep := fun e => h (by simp [e])
    have hcs : sep ∉ cs := fun e => h (by simp [e])
    simp [splitOnChar, hc, ih hcs]

theorem splitOnChar_ne_nil (sep : Char) (s : List Char) : splitOnChar sep s ≠ [] := by
  cases s with
  | nil => simp [splitOnChar]
  | cons c cs =>
    unfold splitOnChar
    split
    · simp
    · split <;> simp

theorem length_splitOnChar (sep : Char) (s : List Char) :
    (splitOnChar sep s).length = s.count sep + 1 := by
  induction s with
  | nil => simp [splitOnChar]
  | cons c cs ih =>
    unfold splitOnChar
    by_cases hc : c = sep
    · simp [hc, ih]
    · have hne := splitOnChar_ne_nil sep cs
      rw [if_neg hc, List.count_cons_of_ne (fun e => hc e.symm)]
      rw [← ih]
      cases hsp : splitOnChar sep cs with
      | nil => exact absurd hsp hne
      | cons piece pieces => simp

theorem length_eq_zero_iff_eq_empty (s : String) : s.length = 0 ↔ s = "" := by
  cases s with
  | mk d =>
    simp only [String.length, List.length_eq_zero]
    constructor
    · intro h
      rw [h]
    · intro h
      exact congrArg String.data h

theorem splitRoles_empty : splitRoles "" = [] := by
  simp [splitRoles]

theorem splitRoles_of_ne (roles : String) (h : roles ≠ "") :
    splitRoles roles = (splitOnChar ',' roles.data).map String.mk := by
  have : ¬ roles.length = 0 := fun e => h ((length_eq_zero_iff_eq_empty roles).1 e)
  simp [splitRoles, this]

theorem length_splitRoles_of_ne (roles : String) (h : roles ≠ "") :
    (splitRoles roles).length = roles.data.count ',' + 1 := by
  rw [splitRoles_of_ne roles h, List.length_map, length_splitOnChar]

theorem foldl_append_singleton {α β : Type} (f : α → β) (l : List α) (init : List β) :
    l.foldl (fun acc x => acc ++ [f x]) init = init ++ l.map f := by
  induction l generalizing init with
  | nil => simp
  | cons x xs ih => simp [ih]

theorem splitCustomRoles_eq_map (customRoles : String) :
    splitCustomRoles customRoles = (splitRoles customRoles).map NewAnsibleRole := by
  simp [splitCustomRoles, foldl_append_singleton NewAnsibleRole]

/-! ## Decoding the project template -/

theorem projectTemplate_data (n : String) :
    (projectTemplate n).data =
      ("\n---\nname: ".data ++ n.data) ++ '\n' :: templateRest.data := rfl

theorem newline_not_mem_of_isPlainText (v : List Char) (h : isPlainText v = true) :
    '\n' ∉ v := by
  intro hm
  simp only [isPlainText, Bool.and_eq_true, List.all_eq_true] at h
  have := h.1.1.1.1.1 _ hm
  revert this
  decide

theorem plainStart_of_isPlainText (v : List Char) (h : isPlainText v = true) :
    plainStart v = true := by
  simp only [isPlainText, Bool.and_eq_true] at h
  exact h.1.1.1.1.2

theorem not_all_space_of_plainStart (v : List Char) (h : plainStart v = true) :
    v.all (fun c => c == ' ') = false := by
  match v, h with
  | [c], h =>
    simp only [plainStart, Bool.and_eq_true, bne_iff_ne, ne_eq] at h
    simp [h.1]
  | c :: d :: rest, h =>
    simp only [plainStart, Bool.and_eq_true, bne_iff_ne, ne_eq] at h
    simp [h.1]

theorem parseValue_plain (v : List Char) (h : isPlainText v = true)
    (hn : isNullWord v = false) : parseValue (' ' :: v) = .ok (some v) := by
  have ha := not_all_space_of_plainStart v (plainStart_of_isPlainText v h)
  simp [parseValue, ha, h, hn]

theorem parseLine_name (v : List Char) (h : isPlainText v = true)
    (hn : isNullWord v = false) :
    parseLine ('n' :: 'a' :: 'm' :: 'e' :: ':' :: ' ' :: v) =
      .ok (some ⟨0, false, .name, some v⟩) := by
  have hv := parseValue_plain v h hn
  simp [parseLine, parseEntry, stripLeading, hv]
  rfl

theorem templateRest_lines :
    ∃ toks, parseLines (takeDocument (splitOnChar '\n' templateRest.data)) = .ok toks ∧
      ∀ v, parseFolder (3 * (toks.length + 1) + 3) 0 ⟨none, none, none⟩
        (⟨0, false, .name, some v⟩ :: toks) =
          .ok (projectTree (String.mk v) [⟨"ansible.cfg", ""⟩] [], []) :=
  ⟨_, rfl, fun _ => rfl⟩

theorem splitOnChar_document (l rest : List Char) (h : '\n' ∉ l) :
    splitOnChar '\n' ('\n' :: '-' :: '-' :: '-' :: '\n' :: (l ++ '\n' :: rest)) =
      [] :: ['-', '-', '-'] :: l :: splitOnChar '\n' rest := by
  have h0 := splitOnChar_append '\n' [] ('-' :: '-' :: '-' :: '\n' :: (l ++ '\n' :: rest))
    (by simp)
  have h1 := splitOnChar_append '\n' ['-', '-', '-'] (l ++ '\n' :: rest) (by decide)
  have h2 := splitOnChar_append '\n' l rest h
  simp only [List.nil_append, List.cons_append] at h0 h1
  rw [h0, h1, h2]

theorem parseLines_document (v : List Char) (ls : List (List Char)) (x : Line)
    (toks : List Line)
    (hl : parseLine ('n' :: 'a' :: 'm' :: 'e' :: ':' :: ' ' :: v) = .ok (some x))
    (hls : parseLines (takeDocument ls) = .ok toks) :
    parseLines (takeDocument (dropDocumentStart
      ([] :: ['-', '-', '-'] :: ('n' :: 'a' :: 'm' :: 'e' :: ':' :: ' ' :: v) :: ls))) =
        .ok (x :: toks) := by
  have h1 : dropDocumentStart
      ([] :: ['-', '-', '-'] :: ('n' :: 'a' :: 'm' :: 'e' :: ':' :: ' ' :: v) :: ls) =
        ('n' :: 'a' :: 'm' :: 'e' :: ':' :: ' ' :: v) :: ls := by
    simp [dropDocumentStart]
  have h2 : takeDocument (('n' :: 'a' :: 'm' :: 'e' :: ':' :: ' ' :: v) :: ls) =
      ('n' :: 'a' :: 'm' :: 'e' :: ':' :: ' ' :: v) :: takeDocument ls := by
    simp [takeDocument]
  rw [h1, h2]
  simp only [parseLines, hl, hls]
  rfl

theorem yamlUnmarshal_projectTemplate (n : String) (h : isPlainScalar n = true) :
    yamlUnmarshal (projectTemplate n) = .ok (projectTree n [⟨"ansible.cfg", ""⟩] []) := by
  simp only [isPlainScalar, Bool.and_eq_true, Bool.not_eq_true'] at h
  obtain ⟨toks, h1, h2⟩ := templateRest_lines
  have hnl : '\n' ∉ ('n' :: 'a' :: 'm' :: 'e' :: ':' :: ' ' :: n.data) := by
    have := newline_not_mem_of_isPlainText _ h.1
    simp only [List.mem_cons, not_or]
    exact ⟨by decide, by decide, by decide, by decide, by decide, by decide, this⟩
  have hlines : parseLines (takeDocument (dropDocumentStart
      (splitOnChar '\n' (projectTemplate n).data))) =
        .ok (⟨0, false, .name, some n.data⟩ :: toks) := by
    rw [projectTemplate_data]
    have := splitOnChar_document _ templateRest.data hnl
    simp only [List.cons_append] at this
    show parseLines (takeDocument (dropDocumentStart (splitOnChar '\n'
      ('\n' :: '-' :: '-' :: '-' :: '\n' :: 'n' :: 'a' :: 'm' :: 'e' :: ':' :: ' ' ::
        (n.data ++ '\n' :: templateRest.data))))) = _
    rw [this]
    exact parseLines_document _ _ _ _ (parseLine_name _ h.1 h.2) h1
  unfold yamlUnmarshal
  rw [hlines]
  have := h2 n.data
  simp only [bind, Except.bind, List.length_cons]
  rw [this]

theorem getProjectTreeTemplate_eq (n : String) (h : isPlainScalar n = true) :
    getProjectTreeTemplate n = .ok (projectTree n [⟨"ansible.cfg", ""⟩] []) :=
  yamlUnmarshal_projectTemplate n h

/-! ## Assembly -/

theorem join_cons (a : String) (l : List String) :
    String.join (a :: l) = a ++ String.join l := by
  apply String.ext
  simp [String.data_join]

theorem foldl_manifest (roles : List String) (init : String) :
    roles.foldl (fun content role => content ++ ("- " ++ role ++ "\n")) init =
      init ++ String.join (roles.map (fun r => "- " ++ r ++ "\n")) := by
  induction roles generalizing init with
  | nil =>
    apply String.ext
    simp [String.data_join]
  | cons r rs ih =>
    simp only [List.foldl_cons, List.map_cons, ih, join_cons]
    apply String.ext
    simp [String.data_append]

theorem foldl_manifest_eq (roles : List String) :
    roles.foldl (fun content role => content ++ ("- " ++ role ++ "\n")) "---\n" =
      manifestContent roles := by
  rw [foldl_manifest, manifestContent, join_cons]

theorem rolesFolderIndex_projectTree (p : AnsibleProject) (n : String) (fs : List File)
    (roles : List Folder) (h : p.TreeStructure = projectTree n fs roles) :
    rolesFolderIndex p "roles" = 2 := by
  simp only [rolesFolderIndex, h, projectTree, Folder.Folders]
  rfl

theorem addRolesToTreeStructure_projectTree (p : AnsibleProject) (n : String)
    (fs : List File) (h : p.TreeStructure = projectTree n fs []) :
    addRolesToTreeStructure p =
      .ok { p with
        TreeStructure := projectTree n fs (p.CustomRoles.map (fun r => r.TreeStructure)) } := by
  have hidx := rolesFolderIndex_projectTree p n fs [] h
  unfold addRolesToTreeStructure
  rw [hidx, h]
  simp only [projectTree, List.get?, List.set,
    foldl_append_singleton (fun r : AnsibleRole => r.TreeStructure), List.nil_append]

theorem splitRoles_length_pos (roles : String) (h : roles ≠ "") :
    0 < (splitRoles roles).length := by
  rw [length_splitRoles_of_ne roles h]
  exact Nat.succ_pos _

theorem addGalaxyRoles_projectTree (p : AnsibleProject) (n : String) (gr : String)
    (roles : List Folder) (hg : p.GalaxyRoles = splitRoles gr)
    (h : p.TreeStructure = projectTree n [⟨"ansible.cfg", ""⟩] roles) :
    addGalaxyRoles p = { p with TreeStructure := projectTree n (rootFiles gr) roles } := by
  obtain ⟨pn, pc, pg, pt, pr⟩ := p
  simp only at hg h
  subst hg h
  unfold addGalaxyRoles rootFiles
  by_cases he : gr = ""
  · subst he
    simp [splitRoles_empty]
  · have hpos := splitRoles_length_pos gr he
    have hlen : ¬ gr.length = 0 := fun e => he ((length_eq_zero_iff_eq_empty gr).1 e)
    simp only [gt_iff_lt, if_pos hpos, if_neg hlen, foldl_manifest_eq]
    rfl

theorem NewAnsibleProject_eq (cwd name customRoles galaxyRoles : String)
    (h : isPlainScalar name = true) :
    NewAnsibleProject cwd name customRoles galaxyRoles =
      .ok { Name := name
            CustomRoles := splitCustomRoles customRoles
            GalaxyRoles := splitRoles galaxyRoles
            TreeStructure := projectTree name (rootFiles galaxyRoles) (roleTrees customRoles)
            RootDir := cwd } := by
  unfold NewAnsibleProject
  rw [getProjectTreeTemplate_eq name h]
  simp only [bind, Except.bind, pure, Except.pure]
  rw [addRolesToTreeStructure_projectTree _ name [⟨"ansible.cfg", ""⟩] rfl]
  simp only
  rw [addGalaxyRoles_projectTree _ name galaxyRoles _ rfl rfl]
  simp only [splitCustomRoles_eq_map, List.map_map, roleTrees]
  rfl

theorem mem_folders_projectTree (n : String) (fs : List File) (roles : List Folder)
    (d : Folder) (hd : d ∈ (projectTree n fs roles).Folders) (hn : d.Name = "roles") :
    d = .mk "roles" [] roles := by
  simp only [projectTree, Folder.Folders, List.mem_cons, List.mem_singleton,
    List.not_mem_nil, or_false] at hd
  rcases hd with h | h | h
  · rw [h] at hn
    exact absurd hn (by decide)
  · rw [h] at hn
    exact absurd hn (by decide)
  · exact h

theorem roles_mem_folders_projectTree (n : String) (fs : List File) (roles : List Folder) :
    Folder.mk "roles" [] roles ∈ (projectTree n fs roles).Folders := by
  simp [projectTree, Folder.Folders]

theorem map_name_roleTrees (customRoles : String) :
    (roleTrees customRoles).map Folder.Name = splitRoles customRoles := by
  simp only [roleTrees, List.map_map]
  conv_rhs => rw [← List.map_id (splitRoles customRoles)]
  rfl

/-! ## The claims -/

/-- Claim C1: for a project name that is a plain scalar and a non-empty
custom-roles string, the assembled tree has one top-level folder named `roles`;
its children are, in the order declared, the sub-trees of the roles
`NewAnsibleRole` builds from the names between the commas, one per name (so
their number is the number of commas plus one, repeated names included), and
each child is named after its role. -/
theorem roles_children_of_customRoles (cwd name customRoles galaxyRoles : String)
    (hname : isPlainScalar name = true) (hne : customRoles ≠ "") :
    ∃ p rolesFolder,
      NewAnsibleProject cwd name customRoles galaxyRoles = .ok p ∧
      rolesFolder ∈ p.TreeStructure.Folders ∧ rolesFolder.Name = "roles" ∧
      (∀ d ∈ p.TreeStructure.Folders, d.Name = "roles" → d = rolesFolder) ∧
      splitRoles customRoles = (splitOnChar ',' customRoles.data).map String.mk ∧
      p.CustomRoles = (splitRoles customRoles).map NewAnsibleRole ∧
      rolesFolder.Folders = p.CustomRoles.map (fun r => r.TreeStructure) ∧
      rolesFolder.Folders.length = customRoles.data.count ',' + 1 ∧
      rolesFolder.Folders.map Folder.Name = splitRoles customRoles ∧
      rolesFolder.Folders.map Folder.Name = p.CustomRoles.map (fun r => r.Name) := by
  refine ⟨_, .mk "roles" [] (roleTrees customRoles),
    NewAnsibleProject_eq cwd name customRoles galaxyRoles hname,
    roles_mem_folders_projectTree _ _ _, rfl,
    fun d hd hn => mem_folders_projectTree _ _ _ d hd hn,
    splitRoles_of_ne customRoles hne, splitCustomRoles_eq_map customRoles, ?_, ?_,
    map_name_roleTrees customRoles, ?_⟩
  · simp only [Folder.Folders, roleTrees, splitCustomRoles_eq_map, List.map_map]
    rfl
  · simp only [Folder.Folders, roleTrees, List.length_map]
    exact length_splitRoles_of_ne customRoles hne
  · simp only [Folder.Folders, map_name_roleTrees, splitCustomRoles_eq_map, List.map_map]
    conv_lhs => rw [← List.map_id (splitRoles customRoles)]
    rfl

/-- Witness of C1: the project `demo` with the custom roles `web,web`. -/
theorem roles_children_of_customRoles_witness :
    isPlainScalar "demo" = true ∧ "web,web" ≠ "" ∧
    ∃ p rolesFolder,
      NewAnsibleProject "/work" "demo" "web,web" "" = .ok p ∧
      rolesFolder ∈ p.TreeStructure.Folders ∧ rolesFolder.Name = "roles" ∧
      (∀ d ∈ p.TreeStructure.Folders, d.Name = "roles" → d = rolesFolder) ∧
      splitRoles "web,web" = (splitOnChar ',' "web,web".data).map String.mk ∧
      p.CustomRoles = (splitRoles "web,web").map NewAnsibleRole ∧
      rolesFolder.Folders = p.CustomRoles.map (fun r => r.TreeStructure) ∧
      rolesFolder.Folders.length = "web,web".data.count ',' + 1 ∧
      rolesFolder.Folders.map Folder.Name = splitRoles "web,web" ∧
      rolesFolder.Folders.map Folder.Name = p.CustomRoles.map (fun r => r.Name) :=
  ⟨by decide, by decide,
    roles_children_of_customRoles "/work" "demo" "web,web" "" (by decide) (by decide)⟩

theorem splitOnChar_flatten_lines (ls : List (List Char)) (h : ∀ l ∈ ls, '\n' ∉ l) :
    splitOnChar '\n' (ls.map (fun l => l ++ ['\n'])).flatten = ls ++ [[]] := by
  induction ls with
  | nil => simp [splitOnChar]
  | cons l rest ih =>
    have hl : '\n' ∉ l := h l (by simp)
    have hrest : ∀ x ∈ rest, '\n' ∉ x := fun x hx => h x (by simp [hx])
    simp only [List.map_cons, List.flatten_cons, List.append_assoc, List.singleton_append,
      List.cons_append]
    rw [splitOnChar_append '\n' l _ hl, List.nil_append, ih hrest]

theorem linesOf_of_lines (text : String) (ls : List (List Char))
    (h : ∀ l ∈ ls, '\n' ∉ l) (ht : text.data = (ls.map (fun l => l ++ ['\n'])).flatten) :
    linesOf text = ls.map String.mk := by
  simp only [linesOf, ht, splitOnChar_flatten_lines ls h]
  simp

theorem manifestContent_data (roles : List String) :
    (manifestContent roles).data =
      ((['-', '-', '-'] :: roles.map (fun r => '-' :: ' ' :: r.data)).map
        (fun l => l ++ ['\n'])).flatten := by
  simp only [manifestContent, String.data_join, List.map_cons, List.map_map,
    List.flatten_cons]
  congr 1

theorem linesOf_manifestContent (roles : List String) (h : ∀ r ∈ roles, '\n' ∉ r.data) :
    linesOf (manifestContent roles) = "---" :: roles.map (fun r => "- " ++ r) := by
  rw [linesOf_of_lines _ _ _ (manifestContent_data roles)]
  · simp only [List.map_cons, List.map_map]
    congr 1
  · intro l hl
    simp only [List.mem_cons, List.mem_map] at hl
    rcases hl with hl | ⟨r, hr, hl⟩
    · rw [hl]
      decide
    · rw [← hl]
      simp only [List.mem_cons, not_or]
      exact ⟨by decide, by decide, h r hr⟩

theorem files_of_NewAnsibleProject (cwd name customRoles galaxyRoles : String)
    (h : isPlainScalar name = true) :
    ∃ p, NewAnsibleProject cwd name customRoles galaxyRoles = .ok p ∧
      p.TreeStructure.Files = rootFiles galaxyRoles :=
  ⟨_, NewAnsibleProject_eq cwd name customRoles galaxyRoles h, rfl⟩

theorem filter_rootFiles_of_ne (galaxyRoles : String) (h : galaxyRoles ≠ "") :
    (rootFiles galaxyRoles).filter (fun f => f.Name = "galaxy-roles.yml") =
      [⟨"galaxy-roles.yml", manifestContent (splitRoles galaxyRoles)⟩] := by
  have hlen : ¬ galaxyRoles.length = 0 :=
    fun e => h ((length_eq_zero_iff_eq_empty galaxyRoles).1 e)
  simp only [rootFiles, if_neg hlen]
  rfl

/-- Claim C2, as amended: for a project name that is a plain scalar and a
non-empty galaxy-roles string, the files of the root hold exactly one file
named `galaxy-roles.yml`; its content is `---\n` followed by `- name\n` for
each declared name, in the order declared, and when no name holds a line break
these are the lines of the content: `---`, then one `- name` line per role,
the number of commas plus two lines in all.  For the empty galaxy-roles string
no file of the root is named `galaxy-roles.yml`. -/
theorem galaxy_manifest_of_galaxyRoles (cwd name customRoles galaxyRoles : String)
    (hname : isPlainScalar name = true) :
    ∃ p content,
      NewAnsibleProject cwd name customRoles galaxyRoles = .ok p ∧
      content = String.join ("---\n" :: (splitRoles galaxyRoles).map (fun r => "- " ++ r ++ "\n")) ∧
      (galaxyRoles ≠ "" →
        p.TreeStructure.Files.filter (fun f => f.Name = "galaxy-roles.yml") =
          [⟨"galaxy-roles.yml", content⟩] ∧
        ((∀ r ∈ splitRoles galaxyRoles, '\n' ∉ r.data) →
          linesOf content = "---" :: (splitRoles galaxyRoles).map (fun r => "- " ++ r) ∧
          (linesOf content).length = galaxyRoles.data.count ',' + 1 + 1)) ∧
      (galaxyRoles = "" → ∀ f ∈ p.TreeStructure.Files, f.Name ≠ "galaxy-roles.yml") := by
  obtain ⟨p, hp, hfiles⟩ := files_of_NewAnsibleProject cwd name customRoles galaxyRoles hname
  refine ⟨p, manifestContent (splitRoles galaxyRoles), hp, rfl, ?_, ?_⟩
  · intro hne
    refine ⟨?_, ?_⟩
    · rw [hfiles]
      exact filter_rootFiles_of_ne galaxyRoles hne
    · intro hnl
      have hl := linesOf_manifestContent (splitRoles galaxyRoles) hnl
      refine ⟨hl, ?_⟩
      rw [hl, List.length_cons, List.length_map, length_splitRoles_of_ne galaxyRoles hne]
  · intro he f hf
    rw [hfiles, he] at hf
    simp only [rootFiles, String.length, List.length_nil, if_true, List.mem_singleton] at hf
    rw [hf]
    decide

/-- Witness of C2: the project `demo` with the galaxy roles `a,b`. -/
theorem galaxy_manifest_of_galaxyRoles_witness :
    isPlainScalar "demo" = true ∧
    ∃ p content,
      NewAnsibleProject "/work" "demo" "" "a,b" = .ok p ∧
      content = String.join ("---\n" :: (splitRoles "a,b").map (fun r => "- " ++ r ++ "\n")) ∧
      ("a,b" ≠ "" →
        p.TreeStructure.Files.filter (fun f => f.Name = "galaxy-roles.yml") =
          [⟨"galaxy-roles.yml", content⟩] ∧
        ((∀ r ∈ splitRoles "a,b", '\n' ∉ r.data) →
          linesOf content = "---" :: (splitRoles "a,b").map (fun r => "- " ++ r) ∧
          (linesOf content).length = "a,b".data.count ',' + 1 + 1)) ∧
      ("a,b" = "" → ∀ f ∈ p.TreeStructure.Files, f.Name ≠ "galaxy-roles.yml") :=
  ⟨by decide, galaxy_manifest_of_galaxyRoles "/work" "demo" "" "a,b" (by decide)⟩

/-- Counterexample to C2 as stated: the galaxy-roles string `a\nb` declares one
name, and the manifest of the project `demo` has three lines, not two. -/
theorem galaxy_manifest_lines_counterexample :
    ∃ p,
      NewAnsibleProject "/work" "demo" "" "a\nb" = .ok p ∧
      (splitRoles "a\nb").length = 1 ∧
      p.TreeStructure.Files.filter (fun f => f.Name = "galaxy-roles.yml") =
        [⟨"galaxy-roles.yml", "---\n- a\nb\n"⟩] ∧
      linesOf "---\n- a\nb\n" = ["---", "- a", "b"] ∧
      (linesOf "---\n- a\nb\n").length ≠ (splitRoles "a\nb").length + 1 :=
  ⟨_, NewAnsibleProject_eq "/work" "demo" "" "a\nb" (by decide), by decide, by decide,
    by decide, by decide⟩

/-- Claim C3: for a valid project name (a plain scalar) and empty role strings
the assembled tree is the tree `getProjectTreeTemplate` returns; it has a
folder `roles`, every top-level folder of that name has neither child folders
nor files, and no file of the tree is named `galaxy-roles.yml`. -/
theorem empty_roles_give_template (cwd name : String) (hname : isPlainScalar name = true) :
    ∃ p t,
      NewAnsibleProject cwd name "" "" = .ok p ∧
      getProjectTreeTemplate name = .ok t ∧
      p.TreeStructure = t ∧
      (∃ d ∈ p.TreeStructure.Folders, d.Name = "roles") ∧
      (∀ d ∈ p.TreeStructure.Folders, d.Name = "roles" → d.Folders = [] ∧ d.Files = []) ∧
      (∀ f ∈ p.TreeStructure.allFiles, f.Name ≠ "galaxy-roles.yml") := by
  refine ⟨_, _, NewAnsibleProject_eq cwd name "" "" hname,
    getProjectTreeTemplate_eq name hname, rfl,
    ⟨_, roles_mem_folders_projectTree _ _ _, rfl⟩, ?_, ?_⟩
  · intro d hd hn
    rw [mem_folders_projectTree _ _ _ d hd hn]
    exact ⟨rfl, rfl⟩
  · intro f hf
    have hall : (projectTree name (rootFiles "") (roleTrees "")).allFiles =
        [⟨"ansible.cfg", ""⟩, ⟨"group1.yml", ""⟩, ⟨"group2.yml", ""⟩, ⟨"host1.yml", ""⟩,
         ⟨"host2.yml", ""⟩, ⟨"group1.yml", ""⟩, ⟨"group2.yml", ""⟩, ⟨"host1.yml", ""⟩,
         ⟨"host2.yml", ""⟩, ⟨"group1.yml", ""⟩, ⟨"group2.yml", ""⟩, ⟨"host1.yml", ""⟩,
         ⟨"host2.yml", ""⟩] := rfl
    rw [hall] at hf
    revert f
    decide

/-- Witness of C3: the project `demo`. -/
theorem empty_roles_give_template_witness :
    isPlainScalar "demo" = true ∧
    ∃ p t,
      NewAnsibleProject "/work" "demo" "" "" = .ok p ∧
      getProjectTreeTemplate "demo" = .ok t ∧
      p.TreeStructure = t ∧
      (∃ d ∈ p.TreeStructure.Folders, d.Name = "roles") ∧
      (∀ d ∈ p.TreeStructure.Folders, d.Name = "roles" → d.Folders = [] ∧ d.Files = []) ∧
      (∀ f ∈ p.TreeStructure.allFiles, f.Name ≠ "galaxy-roles.yml") :=
  ⟨by decide, empty_roles_give_template "/work" "demo" (by decide)⟩

theorem addRolesToTreeStructure_frame (p q : AnsibleProject)
    (h : addRolesToTreeStructure p = .ok q) :
    q.Name = p.Name ∧ q.CustomRoles = p.CustomRoles ∧ q.GalaxyRoles = p.GalaxyRoles ∧
      q.RootDir = p.RootDir := by
  unfold addRolesToTreeStructure at h
  cases ht : p.TreeStructure with
  | mk name files folders =>
    rw [ht] at h
    simp only at h
    cases hg : folders.get? (rolesFolderIndex p "roles") with
    | none =>
      rw [hg] at h
      cases h
    | some d =>
      rw [hg] at h
      cases d with
      | mk rn rf rd =>
        simp only [Except.ok.injEq] at h
        rw [← h]
        exact ⟨rfl, rfl, rfl, rfl⟩

theorem addGalaxyRoles_frame (p : AnsibleProject) :
    (addGalaxyRoles p).Name = p.Name ∧ (addGalaxyRoles p).CustomRoles = p.CustomRoles ∧
      (addGalaxyRoles p).GalaxyRoles = p.GalaxyRoles ∧
      (addGalaxyRoles p).RootDir = p.RootDir := by
  unfold addGalaxyRoles
  split
  · cases p.TreeStructure
    exact ⟨rfl, rfl, rfl, rfl⟩
  · exact ⟨rfl, rfl, rfl, rfl⟩

theorem NewAnsibleProject_fields (cwd name customRoles galaxyRoles : String)
    (p : AnsibleProject) (h : NewAnsibleProject cwd name customRoles galaxyRoles = .ok p) :
    p.Name = name ∧ p.CustomRoles = splitCustomRoles customRoles ∧
      p.GalaxyRoles = splitRoles galaxyRoles ∧ p.RootDir = cwd := by
  unfold NewAnsibleProject at h
  cases ht : getProjectTreeTemplate name with
  | error e =>
    rw [ht] at h
    cases h
  | ok t =>
    rw [ht] at h
    simp only [bind, Except.bind, pure, Except.pure] at h
    cases ha : addRolesToTreeStructure
        { Name := name, CustomRoles := splitCustomRoles customRoles,
          GalaxyRoles := splitRoles galaxyRoles, TreeStructure := t, RootDir := cwd } with
    | error e =>
      rw [ha] at h
      cases h
    | ok q =>
      rw [ha] at h
      simp only [Except.ok.injEq] at h
      have h1 := addRolesToTreeStructure_frame _ q ha
      have h2 := addGalaxyRoles_frame q
      rw [← h]
      exact ⟨h2.1.trans h1.1, h2.2.1.trans h1.2.1, h2.2.2.1.trans h1.2.2.1,
        h2.2.2.2.trans h1.2.2.2⟩

/-- Claim C5: `splitRoles` and `splitCustomRoles` give the empty sequence, of
length 0, on the empty string, never a one-element list holding an empty
name; so every project `NewAnsibleProject` builds from empty role strings has
`CustomRoles` and `GalaxyRoles` of length 0, and it builds one for every
project name that is a plain scalar. -/
theorem empty_role_strings_give_no_roles :
    splitRoles "" = [] ∧ (splitRoles "").length = 0 ∧ splitRoles "" ≠ [""] ∧
    (splitCustomRoles "").length = 0 ∧
    (∀ cwd name p, NewAnsibleProject cwd name "" "" = .ok p →
      p.CustomRoles.length = 0 ∧ p.GalaxyRoles.length = 0) ∧
    (∀ cwd name, isPlainScalar name = true → ∃ p, NewAnsibleProject cwd name "" "" = .ok p) := by
  refine ⟨splitRoles_empty, by simp [splitRoles_empty], by simp [splitRoles_empty],
    by simp [splitCustomRoles, splitRoles_empty], ?_, ?_⟩
  · intro cwd name p h
    obtain ⟨_, h1, h2, _⟩ := NewAnsibleProject_fields cwd name "" "" p h
    rw [h1, h2]
    simp [splitCustomRoles, splitRoles_empty]
  · intro cwd name h
    exact ⟨_, NewAnsibleProject_eq cwd name "" "" h⟩

theorem rolesFolderIndexFrom_of_absent (n : String) (k : Nat) (fs : List Folder)
    (h : ∀ d ∈ fs, d.Name ≠ n) : rolesFolderIndexFrom n k fs = 0 := by
  induction fs generalizing k with
  | nil => rfl
  | cons d ds ih =>
    have hd : d.Name ≠ n := h d (by simp)
    simp only [rolesFolderIndexFrom, if_neg hd]
    exact ih (k + 1) (fun x hx => h x (by simp [hx]))

theorem rolesFolderIndexFrom_of_present (n : String) (k : Nat) (fs : List Folder)
    (h : ∃ d ∈ fs, d.Name = n) :
    ∃ i, rolesFolderIndexFrom n k fs = k + i ∧
      (∃ d, fs.get? i = some d ∧ d.Name = n) ∧
      ∀ j, j < i → ∀ d, fs.get? j = some d → d.Name ≠ n := by
  induction fs generalizing k with
  | nil =>
    obtain ⟨d, hd, _⟩ := h
    cases hd
  | cons d ds ih =>
    by_cases hd : d.Name = n
    · refine ⟨0, by simp [rolesFolderIndexFrom, hd], ⟨d, rfl, hd⟩, ?_⟩
      intro j hj
      exact absurd hj (Nat.not_lt_zero j)
    · have hrest : ∃ x ∈ ds, x.Name = n := by
        obtain ⟨x, hx, hxn⟩ := h
        rcases List.mem_cons.1 hx with h1 | h1
        · exact absurd (h1 ▸ hxn) hd
        · exact ⟨x, h1, hxn⟩
      obtain ⟨i, hi, hfound, hmin⟩ := ih (k + 1) hrest
      refine ⟨i + 1, ?_, ?_, ?_⟩
      · simp only [rolesFolderIndexFrom, if_neg hd, hi]
        omega
      · simpa using hfound
      · intro j hj x hx
        cases j with
        | zero =>
          simp only [List.get?] at hx
          cases hx
          exact hd
        | succ j =>
          simp only [List.get?] at hx
          exact hmin j (by omega) x hx

/-- Claim C7: `rolesFolderIndex` scans the top-level folders in order; when a
folder has exactly the name asked for, the result is the smallest index of such
a folder (the folder at the result has the name, no folder before it has), and
when no folder has the name the result is 0. -/
theorem rolesFolderIndex_first_match_or_zero (project : AnsibleProject) (n : String) :
    ((∃ d ∈ project.TreeStructure.Folders, d.Name = n) →
      rolesFolderIndex project n < project.TreeStructure.Folders.length ∧
      (∃ d, project.TreeStructure.Folders.get? (rolesFolderIndex project n) = some d ∧
        d.Name = n) ∧
      ∀ j, j < rolesFolderIndex project n →
        ∀ d, project.TreeStructure.Folders.get? j = some d → d.Name ≠ n) ∧
    ((∀ d ∈ project.TreeStructure.Folders, d.Name ≠ n) → rolesFolderIndex project n = 0) := by
  refine ⟨?_, fun h => rolesFolderIndexFrom_of_absent n 0 _ h⟩
  intro h
  obtain ⟨i, hi, hfound, hmin⟩ := rolesFolderIndexFrom_of_present n 0 _ h
  have hi2 : rolesFolderIndex project n = i := by
    simp only [rolesFolderIndex, hi, Nat.zero_add]
  rw [hi2]
  refine ⟨?_, hfound, hmin⟩
  obtain ⟨d, hd, _⟩ := hfound
  exact (List.get?_eq_some.1 hd).1

theorem isPlainScalar_of_isPlainText (name : String) (hplain : isPlainText name.data = true)
    (hnull : isNullWord name.data = false) : isPlainScalar name = true := by
  simp [isPlainScalar, hplain, hnull]

/-- Claim C8, as amended: for a project name that is a one-line plain scalar
and none of the null spellings `~`, `null`, `Null` and `NULL`, the template
decodes to the folder named after the project with the file `ansible.cfg` and
the folders `playbooks`, `inventories` and `roles` in that order; `playbooks`
and `roles` are empty, `inventories` holds `dev`, `production` and `staging`,
each with `group_vars` (files `group1.yml`, `group2.yml`) and `host_vars`
(files `host1.yml`, `host2.yml`), and every file of the tree has empty
content. -/
theorem getProjectTreeTemplate_tree (name : String)
    (hplain : isPlainText name.data = true) (hnull : isNullWord name.data = false) :
    ∃ t, getProjectTreeTemplate name = .ok t ∧
      t = .mk name [⟨"ansible.cfg", ""⟩]
        [.mk "playbooks" [] [],
         .mk "inventories" []
           [.mk "dev" []
              [.mk "group_vars" [⟨"group1.yml", ""⟩, ⟨"group2.yml", ""⟩] [],
               .mk "host_vars" [⟨"host1.yml", ""⟩, ⟨"host2.yml", ""⟩] []],
            .mk "production" []
              [.mk "group_vars" [⟨"group1.yml", ""⟩, ⟨"group2.yml", ""⟩] [],
               .mk "host_vars" [⟨"host1.yml", ""⟩, ⟨"host2.yml", ""⟩] []],
            .mk "staging" []
              [.mk "group_vars" [⟨"group1.yml", ""⟩, ⟨"group2.yml", ""⟩] [],
               .mk "host_vars" [⟨"host1.yml", ""⟩, ⟨"host2.yml", ""⟩] []]],
         .mk "roles" [] []] ∧
      t.Name = name ∧
      ∀ f ∈ t.allFiles, f.Content = "" := by
  have hname := isPlainScalar_of_isPlainText name hplain hnull
  refine ⟨_, getProjectTreeTemplate_eq name hname, rfl, rfl, ?_⟩
  intro f hf
  have hall : (projectTree name [⟨"ansible.cfg", ""⟩] []).allFiles =
      [⟨"ansible.cfg", ""⟩, ⟨"group1.yml", ""⟩, ⟨"group2.yml", ""⟩, ⟨"host1.yml", ""⟩,
       ⟨"host2.yml", ""⟩, ⟨"group1.yml", ""⟩, ⟨"group2.yml", ""⟩, ⟨"host1.yml", ""⟩,
       ⟨"host2.yml", ""⟩, ⟨"group1.yml", ""⟩, ⟨"group2.yml", ""⟩, ⟨"host1.yml", ""⟩,
       ⟨"host2.yml", ""⟩] := rfl
  rw [hall] at hf
  revert f
  decide

/-- Witness of C8: the project `demo`. -/
theorem getProjectTreeTemplate_tree_witness :
    isPlainText "demo".data = true ∧ isNullWord "demo".data = false ∧
    ∃ t, getProjectTreeTemplate "demo" = .ok t ∧
      t = .mk "demo" [⟨"ansible.cfg", ""⟩]
        [.mk "playbooks" [] [],
         .mk "inventories" []
           [.mk "dev" []
              [.mk "group_vars" [⟨"group1.yml", ""⟩, ⟨"group2.yml", ""⟩] [],
               .mk "host_vars" [⟨"host1.yml", ""⟩, ⟨"host2.yml", ""⟩] []],
            .mk "production" []
              [.mk "group_vars" [⟨"group1.yml", ""⟩, ⟨"group2.yml", ""⟩] [],
               .mk "host_vars" [⟨"host1.yml", ""⟩, ⟨"host2.yml", ""⟩] []],
            .mk "staging" []
              [.mk "group_vars" [⟨"group1.yml", ""⟩, ⟨"group2.yml", ""⟩] [],
               .mk "host_vars" [⟨"host1.yml", ""⟩, ⟨"host2.yml", ""⟩] []]],
         .mk "roles" [] []] ∧
      t.Name = "demo" ∧
      ∀ f ∈ t.allFiles, f.Content = "" :=
  ⟨by decide, by decide, getProjectTreeTemplate_tree "demo" (by decide) (by decide)⟩

/-- Counterexample to C8 as stated: `~`, `null`, `Null` and `NULL` are plain
scalars, the decoder reads each of them as the null value and leaves the name
of the folder empty, so the tree decoded for the project `null` is not named
after the project. -/
theorem null_spelling_counterexample :
    (isPlainText "null".data = true ∧
      ∃ t, getProjectTreeTemplate "null" = .ok t ∧ t.Name = "" ∧ t.Name ≠ "null") ∧
    (isPlainText "~".data = true ∧
      ∃ t, getProjectTreeTemplate "~" = .ok t ∧ t.Name = "" ∧ t.Name ≠ "~") ∧
    (isPlainText "Null".data = true ∧
      ∃ t, getProjectTreeTemplate "Null" = .ok t ∧ t.Name = "" ∧ t.Name ≠ "Null") ∧
    (isPlainText "NULL".data = true ∧
      ∃ t, getProjectTreeTemplate "NULL" = .ok t ∧ t.Name = "" ∧ t.Name ≠ "NULL") :=
  ⟨⟨by decide, projectTree "" [⟨"ansible.cfg", ""⟩] [], rfl, rfl, by decide⟩,
    ⟨by decide, projectTree "" [⟨"ansible.cfg", ""⟩] [], rfl, rfl, by decide⟩,
    ⟨by decide, projectTree "" [⟨"ansible.cfg", ""⟩] [], rfl, rfl, by decide⟩,
    ⟨by decide, projectTree "" [⟨"ansible.cfg", ""⟩] [], rfl, rfl, by decide⟩⟩

/-- Claim C9: `NewAnsibleProject("demo", "web,db", "community.general")`
builds a tree whose one top-level folder `roles` has exactly the two children
`web` and `db`, in that order, and whose root files hold `galaxy-roles.yml`
with the content `---\n- community.general\n`. -/
theorem demo_project_tree (cwd : String) :
    ∃ p rolesFolder,
      NewAnsibleProject cwd "demo" "web,db" "community.general" = .ok p ∧
      rolesFolder ∈ p.TreeStructure.Folders ∧ rolesFolder.Name = "roles" ∧
      (∀ d ∈ p.TreeStructure.Folders, d.Name = "roles" → d = rolesFolder) ∧
      rolesFolder.Folders.length = 2 ∧
      rolesFolder.Folders.map Folder.Name = ["web", "db"] ∧
      (⟨"galaxy-roles.yml", "---\n- community.general\n"⟩ : File) ∈ p.TreeStructure.Files ∧
      p.TreeStructure.Files.filter (fun f => f.Name = "galaxy-roles.yml") =
        [⟨"galaxy-roles.yml", "---\n- community.general\n"⟩] := by
  refine ⟨_, .mk "roles" [] (roleTrees "web,db"),
    NewAnsibleProject_eq cwd "demo" "web,db" "community.general" (by decide),
    roles_mem_folders_projectTree _ _ _, rfl,
    fun d hd hn => mem_folders_projectTree _ _ _ d hd hn,
    by decide, by decide, ?_, ?_⟩
  · show _ ∈ rootFiles "community.general"
    decide
  · show (rootFiles "community.general").filter _ = _
    decide

theorem writeFiles_dry (dir : String) (files : List File) (fs : FileSystem) :
    writeFiles dir true files fs = fs := by
  induction files generalizing fs with
  | nil => rfl
  | cons f rest ih => simp [writeFiles, ih]

mutual

theorem WriteTreeToDisk_dry (basePath : String) :
    ∀ (d : Folder) (fs : FileSystem) (rootDir : String),
      WriteTreeToDisk basePath d fs true rootDir = fs
  | .mk name files folders, fs, rootDir => by
    simp only [WriteTreeToDisk, if_true, writeFiles_dry]
    exact writeFolders_dry (basePath ++ "/" ++ name) folders fs rootDir

theorem writeFolders_dry (basePath : String) :
    ∀ (ds : List Folder) (fs : FileSystem) (rootDir : String),
      writeFolders basePath ds fs true rootDir = fs
  | [], _, _ => by simp [writeFolders]
  | d :: ds, fs, rootDir => by
    simp only [writeFolders]
    rw [WriteTreeToDisk_dry basePath d fs rootDir]
    exact writeFolders_dry basePath ds fs rootDir

end

/-- Claim C10: for every project, whatever its tree, and every filesystem,
`Save` with the dry-run flag set leaves the filesystem as it was: no directory
and no file is created, changed or removed by the materialization it starts,
and the lines printed are those of a run without the flag. -/
theorem save_dry_run_keeps_filesystem (project : AnsibleProject) (w : World) :
    (Save project true w).fs = w.fs ∧
    WriteTreeToDisk project.RootDir project.TreeStructure w.fs true project.RootDir = w.fs ∧
    (Save project true w).stdout = (Save project false w).stdout := by
  refine ⟨?_, WriteTreeToDisk_dry _ _ _ _, rfl⟩
  simp only [Save]
  exact WriteTreeToDisk_dry _ _ _ _

theorem filter_roles_projectTree (n : String) (fs : List File) (roles : List Folder) :
    (projectTree n fs roles).Folders.filter (fun d => d.Name = "roles") =
      [.mk "roles" [] roles] := by
  simp only [projectTree, Folder.Folders, inventories]
  rfl

/-- Claim C4, as amended: for every project name that is a plain scalar, every
custom-roles string and every galaxy-roles string, the assembled tree has
exactly one top-level folder named `roles`, and its root files hold exactly
one file named `galaxy-roles.yml` when the galaxy-roles string is not empty
and none when it is. -/
theorem one_roles_folder_one_manifest (cwd name customRoles galaxyRoles : String)
    (hname : isPlainScalar name = true) :
    ∃ p,
      NewAnsibleProject cwd name customRoles galaxyRoles = .ok p ∧
      (p.TreeStructure.Folders.filter (fun d => d.Name = "roles")).length = 1 ∧
      (p.TreeStructure.Files.filter (fun f => f.Name = "galaxy-roles.yml")).length =
        (if galaxyRoles = "" then 0 else 1) := by
  refine ⟨_, NewAnsibleProject_eq cwd name customRoles galaxyRoles hname, ?_, ?_⟩
  · show ((projectTree name _ _).Folders.filter _).length = 1
    rw [filter_roles_projectTree]
    rfl
  · show ((rootFiles galaxyRoles).filter _).length = _
    by_cases he : galaxyRoles = ""
    · rw [if_pos he, he]
      decide
    · rw [if_neg he, filter_rootFiles_of_ne galaxyRoles he]
      rfl

/-- Witness of C4: the project `demo` with two custom roles and one galaxy
role. -/
theorem one_roles_folder_one_manifest_witness :
    isPlainScalar "demo" = true ∧
    ∃ p,
      NewAnsibleProject "/work" "demo" "web,db" "community.general" = .ok p ∧
      (p.TreeStructure.Folders.filter (fun d => d.Name = "roles")).length = 1 ∧
      (p.TreeStructure.Files.filter (fun f => f.Name = "galaxy-roles.yml")).length =
        (if "community.general" = "" then 0 else 1) :=
  ⟨by decide,
    one_roles_folder_one_manifest "/work" "demo" "web,db" "community.general" (by decide)⟩

/-- Counterexample to C4 as stated: a project name that goes on, after a line
break, with a `folders` entry of its own and the line `...` ends the document
before the folders of the template; the tree built has two top-level folders
named `roles`. -/
theorem two_roles_folders_counterexample :
    ∃ p,
      NewAnsibleProject "/work" "demo\nfolders:\n- name: roles\n- name: roles\n..." "" "" =
        .ok p ∧
      p.TreeStructure.Name = "demo" ∧
      p.TreeStructure.Folders.map Folder.Name = ["roles", "roles"] ∧
      (p.TreeStructure.Folders.filter (fun d => d.Name = "roles")).length = 2 :=
  ⟨{ Name := "demo\nfolders:\n- name: roles\n- name: roles\n..."
     CustomRoles := []
     GalaxyRoles := []
     TreeStructure := .mk "demo" [] [.mk "roles" [] [], .mk "roles" [] []]
     RootDir := "/work" }, rfl, rfl, rfl, rfl⟩

theorem allFolders_projectTree (n : String) (fs : List File) (roles : List Folder) :
    (projectTree n fs roles).allFolders =
      projectTree n fs roles :: .mk "playbooks" [] [] ::
        (inventories.allFolders ++ (.mk "roles" [] roles :: allFoldersOf roles)) := by
  simp [projectTree, Folder.allFolders, allFoldersOf]

theorem allFiles_projectTree (n : String) (fs : List File) (roles : List Folder) :
    (projectTree n fs roles).allFiles = fs ++ (inventories.allFiles ++ allFilesOf roles) := by
  simp [projectTree, Folder.allFiles, allFilesOf]

theorem allFoldersOf_roleTrees (names : List String) (d : Folder)
    (hd : d ∈ allFoldersOf (names.map (fun r => (NewAnsibleRole r).TreeStructure))) :
    d.Name ∈ names ∨
      d.Name ∈ ["tasks", "handlers", "templates", "vars", "defaults", "meta"] := by
  induction names with
  | nil => cases hd
  | cons r rs ih =>
    simp only [List.map_cons, allFoldersOf, List.mem_append] at hd
    rcases hd with h | h
    · simp only [NewAnsibleRole, Folder.allFolders, allFoldersOf, List.append_nil,
        List.cons_append, List.nil_append, List.mem_cons, List.not_mem_nil, or_false] at h
      rcases h with h | h | h | h | h | h | h <;> rw [h] <;> simp [Folder.Name]
    · rcases ih h with h1 | h1
      · exact Or.inl (List.mem_cons_of_mem _ h1)
      · exact Or.inr h1

theorem allFilesOf_roleTrees (names : List String) :
    allFilesOf (names.map (fun r => (NewAnsibleRole r).TreeStructure)) = [] := by
  induction names with
  | nil => rfl
  | cons r rs ih =>
    simp only [List.map_cons, allFilesOf, ih, List.append_nil]
    rfl

theorem ne_empty_of_isPlainScalar (n : String) (h : isPlainScalar n = true) : n ≠ "" := by
  intro he
  rw [he] at h
  revert h
  decide

theorem isEntryName_iff (s : String) :
    isEntryName s = true ↔ s ≠ "" ∧ hasPathSeparator s = false := by
  simp [isEntryName]

theorem names_inventories_folders :
    ∀ d ∈ inventories.allFolders, d.Name ≠ "" ∧ hasPathSeparator d.Name = false := by
  decide

theorem names_inventories_files :
    ∀ f ∈ inventories.allFiles, f.Name ≠ "" ∧ hasPathSeparator f.Name = false := by
  decide

/-- Claim C6, as amended: for a project name that is a one-line plain scalar,
none of the null spellings `~`, `null`, `Null` and `NULL`, and without path
separator, and role strings whose custom role names are each non-empty and
without path separator, every folder of the assembled tree, the root included,
and every file of it has a non-empty name that holds no path separator. -/
theorem entry_names_of_tree (cwd name customRoles galaxyRoles : String)
    (hplain : isPlainText name.data = true) (hnull : isNullWord name.data = false)
    (hsep : hasPathSeparator name = false)
    (hroles : ∀ r ∈ splitRoles customRoles, r ≠ "" ∧ hasPathSeparator r = false) :
    ∃ p,
      NewAnsibleProject cwd name customRoles galaxyRoles = .ok p ∧
      (∀ d ∈ p.TreeStructure.allFolders, d.Name ≠ "" ∧ hasPathSeparator d.Name = false) ∧
      (∀ f ∈ p.TreeStructure.allFiles, f.Name ≠ "" ∧ hasPathSeparator f.Name = false) := by
  have hname := isPlainScalar_of_isPlainText name hplain hnull
  refine ⟨_, NewAnsibleProject_eq cwd name customRoles galaxyRoles hname, ?_, ?_⟩
  · intro d hd
    have hd2 : d ∈ (projectTree name (rootFiles galaxyRoles) (roleTrees customRoles)).allFolders :=
      hd
    rw [allFolders_projectTree] at hd2
    simp only [List.mem_cons, List.mem_append] at hd2
    rcases hd2 with h | h | h | h | h
    · rw [h]
      exact ⟨ne_empty_of_isPlainScalar name hname, hsep⟩
    · rw [h]
      decide
    · exact names_inventories_folders d h
    · rw [h]
      show "roles" ≠ "" ∧ hasPathSeparator "roles" = false
      decide
    · rcases allFoldersOf_roleTrees _ d h with h1 | h1
      · exact hroles _ h1
      · revert h1
        generalize d.Name = x
        intro h1
        simp only [List.mem_cons, List.not_mem_nil, or_false] at h1
        rcases h1 with h1 | h1 | h1 | h1 | h1 | h1 <;> rw [h1] <;> decide
  · intro f hf
    have hf2 : f ∈ (projectTree name (rootFiles galaxyRoles) (roleTrees customRoles)).allFiles :=
      hf
    rw [allFiles_projectTree, roleTrees, allFilesOf_roleTrees, List.append_nil] at hf2
    rcases List.mem_append.1 hf2 with h | h
    · unfold rootFiles at h
      split at h
      · simp only [List.mem_singleton] at h
        rw [h]
        decide
      · simp only [List.mem_cons, List.not_mem_nil, or_false] at h
        rcases h with h | h
        · rw [h]
          decide
        · rw [h]
          show "galaxy-roles.yml" ≠ "" ∧ hasPathSeparator "galaxy-roles.yml" = false
          decide
    · exact names_inventories_files f h

/-- Witness of C6: the project `demo` with the custom roles `web,db`. -/
theorem entry_names_of_tree_witness :
    isPlainText "demo".data = true ∧ isNullWord "demo".data = false ∧
    hasPathSeparator "demo" = false ∧
    (∀ r ∈ splitRoles "web,db", r ≠ "" ∧ hasPathSeparator r = false) ∧
    ∃ p,
      NewAnsibleProject "/work" "demo" "web,db" "community.general" = .ok p ∧
      (∀ d ∈ p.TreeStructure.allFolders, d.Name ≠ "" ∧ hasPathSeparator d.Name = false) ∧
      (∀ f ∈ p.TreeStructure.allFiles, f.Name ≠ "" ∧ hasPathSeparator f.Name = false) :=
  ⟨by decide, by decide, by decide, by decide,
    entry_names_of_tree "/work" "demo" "web,db" "community.general" (by decide) (by decide)
      (by decide) (by decide)⟩

/-- Counterexample to C6 as stated, in five inputs.  The project name `a/b`
is decoded as it is, so the root folder has a path separator in its name.  The
project name `~`, a plain scalar without path separator, is a spelling of the
null value, and the root folder has the empty name.  A project name that goes
on, after a line break, with a folder entry without name and the line `...`
has no path separator, and the tree has a folder with the empty name.  The
custom-roles string `web,,db` declares a role with the empty name, and `x/y` a
role with a path separator in its name; each names its folder. -/
theorem entry_names_counterexample :
    (∃ p,
      NewAnsibleProject "/work" "a/b" "" "" = .ok p ∧
      p.TreeStructure ∈ p.TreeStructure.allFolders ∧
      p.TreeStructure.Name = "a/b" ∧ hasPathSeparator p.TreeStructure.Name = true) ∧
    (∃ p,
      isPlainText "~".data = true ∧ hasPathSeparator "~" = false ∧
      NewAnsibleProject "/work" "~" "" "" = .ok p ∧
      p.TreeStructure ∈ p.TreeStructure.allFolders ∧ p.TreeStructure.Name = "") ∧
    (∃ p d,
      hasPathSeparator "demo\nfolders:\n- name:\n..." = false ∧
      NewAnsibleProject "/work" "demo\nfolders:\n- name:\n..." "" "" = .ok p ∧
      d ∈ p.TreeStructure.allFolders ∧ d.Name = "") ∧
    (∃ q d,
      NewAnsibleProject "/work" "demo" "web,,db" "" = .ok q ∧
      d ∈ q.TreeStructure.allFolders ∧ d.Name = "") ∧
    (∃ q d,
      NewAnsibleProject "/work" "demo" "x/y" "" = .ok q ∧
      d ∈ q.TreeStructure.allFolders ∧ hasPathSeparator d.Name = true) := by
  refine ⟨⟨_, NewAnsibleProject_eq "/work" "a/b" "" "" (by decide), ?_, rfl, by decide⟩,
    ⟨⟨"~", [], [], projectTree "" [⟨"ansible.cfg", ""⟩] [], "/work"⟩,
      by decide, by decide, rfl, ?_, rfl⟩,
    ⟨⟨"demo\nfolders:\n- name:\n...", [], [], .mk "demo" [] [.mk "" [] []], "/work"⟩,
      .mk "" [] [], by decide, rfl, ?_, rfl⟩,
    ⟨_, (NewAnsibleRole "").TreeStructure,
      NewAnsibleProject_eq "/work" "demo" "web,,db" "" (by decide), ?_, rfl⟩,
    ⟨_, (NewAnsibleRole "x/y").TreeStructure,
      NewAnsibleProject_eq "/work" "demo" "x/y" "" (by decide), ?_, by decide⟩⟩
  · show projectTree _ _ _ ∈ (projectTree _ _ _).allFolders
    rw [allFolders_projectTree]
    exact List.mem_cons_self _ _
  · show projectTree _ _ _ ∈ (projectTree _ _ _).allFolders
    rw [allFolders_projectTree]
    exact List.mem_cons_self _ _
  · simp [Folder.allFolders, allFoldersOf]
  · show _ ∈ (projectTree _ _ _).allFolders
    rw [allFolders_projectTree]
    simp [roleTrees, splitRoles, splitOnChar, allFoldersOf, Folder.allFolders, NewAnsibleRole]
  · show _ ∈ (projectTree _ _ _).allFolders
    rw [allFolders_projectTree]
    simp [roleTrees, splitRoles, splitOnChar, allFoldersOf, Folder.allFolders, NewAnsibleRole]

/-- Claim C11: `InitGit` runs an external command exactly when the run is not
dry; the command is then `git` with the arguments `init` and the one path
`RootDir` joined with `Name`, and nothing else; in a dry run no command is run,
the confirmation is the one line printed, nothing goes to the standard error
and the process is not ended. -/
theorem initGit_runs_git_init_unless_dry (host : Host) (project : AnsibleProject)
    (dryRun : Bool) :
    ((InitGit host project dryRun).commands ≠ [] ↔ dryRun = false) ∧
    (dryRun = false →
      (InitGit host project dryRun).commands =
        [("git", ["init", host.joinPath project.RootDir project.Name])]) ∧
    (dryRun = true →
      (InitGit host project dryRun).commands = [] ∧
      (InitGit host project dryRun).stdout =
        ["Successfully initialized a Git repository for the project\n"] ∧
      (InitGit host project dryRun).stderr = [] ∧
      (InitGit host project dryRun).exitCode = none) := by
  cases dryRun with
  | true => simp [InitGit]
  | false =>
    have hc : (InitGit host project false).commands =
        [("git", ["init", host.joinPath project.RootDir project.Name])] := by
      simp only [InitGit]
      cases host.execRun "git" ["init", host.joinPath project.RootDir project.Name] <;> rfl
    simp [hc]

/-! ## The sentinel of `rolesFolderIndex` -/

theorem addRolesToTreeStructure_of_get (p : AnsibleProject) (name : String)
    (files : List File) (folders : List Folder) (rn : String) (rf : List File)
    (rd : List Folder) (ht : p.TreeStructure = .mk name files folders)
    (hg : folders.get? (rolesFolderIndex p "roles") = some (.mk rn rf rd)) :
    addRolesToTreeStructure p =
      .ok { p with
        TreeStructure := .mk name files
          (folders.set (rolesFolderIndex p "roles")
            (.mk rn rf (rd ++ p.CustomRoles.map (fun r => r.TreeStructure)))) } := by
  unfold addRolesToTreeStructure
  rw [ht]
  simp only
  rw [hg]
  simp only [foldl_append_singleton (fun r : AnsibleRole => r.TreeStructure)]

theorem addRolesToTreeStructure_of_nil (p : AnsibleProject) (name : String)
    (files : List File) (ht : p.TreeStructure = .mk name files []) :
    addRolesToTreeStructure p = .error (.indexOutOfRange 0 0) := by
  have hidx : rolesFolderIndex p "roles" = 0 := by
    simp [rolesFolderIndex, ht, Folder.Folders, rolesFolderIndexFrom]
  unfold addRolesToTreeStructure
  rw [ht]
  simp only
  rw [hidx]
  rfl

theorem rolesFolderIndex_lt (p : AnsibleProject) (n : String)
    (h : p.TreeStructure.Folders ≠ []) :
    rolesFolderIndex p n < p.TreeStructure.Folders.length := by
  by_cases hex : ∃ d ∈ p.TreeStructure.Folders, d.Name = n
  · obtain ⟨i, hi, ⟨d, hd, _⟩, _⟩ := rolesFolderIndexFrom_of_present n 0 _ hex
    have : rolesFolderIndex p n = i := by
      simp only [rolesFolderIndex, hi, Nat.zero_add]
    rw [this]
    exact (List.get?_eq_some.1 hd).1
  · have habs : ∀ d ∈ p.TreeStructure.Folders, d.Name ≠ n :=
      fun d hd hn => hex ⟨d, hd, hn⟩
    have : rolesFolderIndex p n = 0 := rolesFolderIndexFrom_of_absent n 0 _ habs
    rw [this]
    exact List.length_pos.2 h

theorem rolesFolderIndex_of_head (q : AnsibleProject) (d : Folder) (ds : List Folder)
    (hq : q.TreeStructure.Folders = d :: ds) (hd : d.Name = "roles") :
    rolesFolderIndex q "roles" = 0 := by
  simp [rolesFolderIndex, hq, rolesFolderIndexFrom, hd]

/-- Claim C12: on a project tree with at least one top-level folder and none
named `roles`, `rolesFolderIndex` gives 0 for `roles` and
`addRolesToTreeStructure` appends the sub-tree of every custom role, in order,
to the children of the first top-level folder, the rest of the tree kept; 0 is
also the index given for every tree whose first top-level folder is named
`roles`. -/
theorem sentinel_conflates_absent_with_first (p : AnsibleProject) (name : String)
    (files : List File) (first : Folder) (rest : List Folder)
    (ht : p.TreeStructure = .mk name files (first :: rest))
    (habsent : ∀ d ∈ first :: rest, d.Name ≠ "roles") :
    rolesFolderIndex p "roles" = 0 ∧
    addRolesToTreeStructure p =
      .ok { p with
        TreeStructure := .mk name files
          (.mk first.Name first.Files
            (first.Folders ++ p.CustomRoles.map (fun r => r.TreeStructure)) :: rest) } ∧
    (∀ (q : AnsibleProject) (d : Folder) (ds : List Folder),
      q.TreeStructure.Folders = d :: ds → d.Name = "roles" →
        rolesFolderIndex q "roles" = rolesFolderIndex p "roles") := by
  have hidx : rolesFolderIndex p "roles" = 0 := by
    have := rolesFolderIndexFrom_of_absent "roles" 0 (first :: rest) habsent
    simpa [rolesFolderIndex, ht, Folder.Folders] using this
  refine ⟨hidx, ?_, ?_⟩
  · cases first with
    | mk fn ff fd =>
      have hg : (Folder.mk fn ff fd :: rest).get? (rolesFolderIndex p "roles") =
          some (.mk fn ff fd) := by
        rw [hidx]
        rfl
      rw [addRolesToTreeStructure_of_get p name files _ fn ff fd ht hg, hidx]
      rfl
  · intro q d ds hq hd
    rw [hidx]
    exact rolesFolderIndex_of_head q d ds hq hd

/-- Witness of C12: a project whose one top-level folder is `playbooks`, with
the custom role `web`. -/
theorem sentinel_conflates_absent_with_first_witness :
    (∀ d ∈ [Folder.mk "playbooks" [] []], d.Name ≠ "roles") ∧
    rolesFolderIndex ⟨"demo", [NewAnsibleRole "web"], [],
      .mk "demo" [] [.mk "playbooks" [] []], "/work"⟩ "roles" = 0 ∧
    addRolesToTreeStructure ⟨"demo", [NewAnsibleRole "web"], [],
        .mk "demo" [] [.mk "playbooks" [] []], "/work"⟩ =
      .ok ⟨"demo", [NewAnsibleRole "web"], [],
        .mk "demo" []
          [.mk "playbooks" [] ([] ++ [(NewAnsibleRole "web").TreeStructure])], "/work"⟩ ∧
    (∀ (q : AnsibleProject) (d : Folder) (ds : List Folder),
      q.TreeStructure.Folders = d :: ds → d.Name = "roles" →
        rolesFolderIndex q "roles" =
          rolesFolderIndex ⟨"demo", [NewAnsibleRole "web"], [],
            .mk "demo" [] [.mk "playbooks" [] []], "/work"⟩ "roles") :=
  ⟨by decide,
    sentinel_conflates_absent_with_first
      ⟨"demo", [NewAnsibleRole "web"], [], .mk "demo" [] [.mk "playbooks" [] []], "/work"⟩
      "demo" [] (.mk "playbooks" [] []) [] rfl (by decide)⟩

theorem addRolesToTreeStructure_ok_of_ne_nil (p : AnsibleProject)
    (h : p.TreeStructure.Folders ≠ []) : ∃ q, addRolesToTreeStructure p = .ok q := by
  have hlt := rolesFolderIndex_lt p "roles" h
  cases ht : p.TreeStructure with
  | mk name files folders =>
    rw [ht] at hlt
    simp only [Folder.Folders] at hlt
    cases hg : folders.get? (rolesFolderIndex p "roles") with
    | none =>
      rw [List.get?_eq_none] at hg
      omega
    | some d =>
      cases d with
      | mk rn rf rd => exact ⟨_, addRolesToTreeStructure_of_get p name files folders rn rf rd ht hg⟩

theorem addRolesToTreeStructure_error_of_nil (p : AnsibleProject)
    (h : p.TreeStructure.Folders = []) :
    addRolesToTreeStructure p = .error (.indexOutOfRange 0 0) := by
  cases ht : p.TreeStructure with
  | mk name files folders =>
    rw [ht] at h
    simp only [Folder.Folders] at h
    subst h
    exact addRolesToTreeStructure_of_nil p name files ht

/-- Claim C13, as amended: the indexing of `addRolesToTreeStructure` is in
bounds exactly when the project has a top-level folder.  With at least one,
`rolesFolderIndex` gives an index below their number and the roles are added;
with none, the access `Folders[0]` is out of range.  On the tree
`getProjectTreeTemplate` returns for a project name that is a plain scalar the
index is 2, the position of `roles`, and `NewAnsibleProject` builds the
project, whatever the role strings. -/
theorem roles_index_in_bounds (cwd name customRoles galaxyRoles : String)
    (hname : isPlainScalar name = true) :
    (∀ p : AnsibleProject, p.TreeStructure.Folders ≠ [] →
      rolesFolderIndex p "roles" < p.TreeStructure.Folders.length ∧
      ∃ q, addRolesToTreeStructure p = .ok q) ∧
    (∀ p : AnsibleProject, p.TreeStructure.Folders = [] →
      addRolesToTreeStructure p = .error (.indexOutOfRange 0 0)) ∧
    (∃ t, getProjectTreeTemplate name = .ok t ∧
      (∀ p : AnsibleProject, p.TreeStructure = t → rolesFolderIndex p "roles" = 2) ∧
      (∃ d, t.Folders.get? 2 = some d ∧ d.Name = "roles") ∧
      t.Folders.length = 3 ∧
      ∃ p, NewAnsibleProject cwd name customRoles galaxyRoles = .ok p) :=
  ⟨fun p h => ⟨rolesFolderIndex_lt p "roles" h, addRolesToTreeStructure_ok_of_ne_nil p h⟩,
    addRolesToTreeStructure_error_of_nil,
    ⟨_, getProjectTreeTemplate_eq name hname,
      fun p hp => rolesFolderIndex_projectTree p name _ _ hp,
      ⟨_, rfl, rfl⟩, rfl,
      ⟨_, NewAnsibleProject_eq cwd name customRoles galaxyRoles hname⟩⟩⟩

/-- Witness of C13: the project `demo` with the custom roles `web,db`. -/
theorem roles_index_in_bounds_witness :
    isPlainScalar "demo" = true ∧
    (∀ p : AnsibleProject, p.TreeStructure.Folders ≠ [] →
      rolesFolderIndex p "roles" < p.TreeStructure.Folders.length ∧
      ∃ q, addRolesToTreeStructure p = .ok q) ∧
    (∀ p : AnsibleProject, p.TreeStructure.Folders = [] →
      addRolesToTreeStructure p = .error (.indexOutOfRange 0 0)) ∧
    (∃ t, getProjectTreeTemplate "demo" = .ok t ∧
      (∀ p : AnsibleProject, p.TreeStructure = t → rolesFolderIndex p "roles" = 2) ∧
      (∃ d, t.Folders.get? 2 = some d ∧ d.Name = "roles") ∧
      t.Folders.length = 3 ∧
      ∃ p, NewAnsibleProject "/work" "demo" "web,db" "" = .ok p) :=
  ⟨by decide, roles_index_in_bounds "/work" "demo" "web,db" "" (by decide)⟩

/-- Counterexample to C13 as stated: for the project name `x`, a line break
and the line `...`, the document ends after the name, the tree decoded has no
top-level folder, and `NewAnsibleProject` indexes `Folders[0]` out of range. -/
theorem index_out_of_range_counterexample :
    getProjectTreeTemplate "x\n..." = .ok (.mk "x" [] []) ∧
    NewAnsibleProject "/work" "x\n..." "" "" = .error (.indexOutOfRange 0 0) :=
  ⟨rfl, rfl⟩

theorem rootFiles_eq_append (galaxyRoles : String) :
    ∃ extra, rootFiles galaxyRoles = [⟨"ansible.cfg", ""⟩] ++ extra ∧ extra.length ≤ 1 ∧
      ∀ f ∈ extra, f.Name = "galaxy-roles.yml" := by
  unfold rootFiles
  split
  · exact ⟨[], rfl, by simp, by simp⟩
  · exact ⟨[⟨"galaxy-roles.yml", manifestContent (splitRoles galaxyRoles)⟩], rfl, by simp,
      by simp⟩

/-- Claim C14, as amended: for every project name that is a plain scalar and
all role strings, the assembled tree differs from the tree of
`getProjectTreeTemplate` in two places only.  The root name is the same; the
top-level folders have the same names in the same order, `playbooks` and
`inventories` are the folders of the template, and `roles` keeps its name and
files and gets the role sub-trees after the children it had; the files of the
root are those of the template followed by at most one file, the manifest. -/
theorem assembly_changes_two_places (cwd name customRoles galaxyRoles : String)
    (hname : isPlainScalar name = true) :
    ∃ p t,
      NewAnsibleProject cwd name customRoles galaxyRoles = .ok p ∧
      getProjectTreeTemplate name = .ok t ∧
      p.TreeStructure.Name = t.Name ∧
      p.TreeStructure.Folders.map Folder.Name = t.Folders.map Folder.Name ∧
      t.Folders.map Folder.Name = ["playbooks", "inventories", "roles"] ∧
      p.TreeStructure.Folders.get? 0 = t.Folders.get? 0 ∧
      p.TreeStructure.Folders.get? 1 = t.Folders.get? 1 ∧
      (∃ r r0, p.TreeStructure.Folders.get? 2 = some r ∧ t.Folders.get? 2 = some r0 ∧
        r.Name = r0.Name ∧ r.Files = r0.Files ∧
        r.Folders = r0.Folders ++ p.CustomRoles.map (fun x => x.TreeStructure)) ∧
      (∃ extra, p.TreeStructure.Files = t.Files ++ extra ∧ extra.length ≤ 1 ∧
        ∀ f ∈ extra, f.Name = "galaxy-roles.yml") := by
  refine ⟨_, _, NewAnsibleProject_eq cwd name customRoles galaxyRoles hname,
    getProjectTreeTemplate_eq name hname, rfl, rfl, rfl, rfl, rfl,
    ⟨_, _, rfl, rfl, rfl, rfl, ?_⟩, ?_⟩
  · simp only [Folder.Folders, List.nil_append, roleTrees, splitCustomRoles_eq_map,
      List.map_map]
    rfl
  · exact rootFiles_eq_append galaxyRoles

/-- Witness of C14: the project `demo` with two custom roles and one galaxy
role. -/
theorem assembly_changes_two_places_witness :
    isPlainScalar "demo" = true ∧
    ∃ p t,
      NewAnsibleProject "/work" "demo" "web,db" "community.general" = .ok p ∧
      getProjectTreeTemplate "demo" = .ok t ∧
      p.TreeStructure.Name = t.Name ∧
      p.TreeStructure.Folders.map Folder.Name = t.Folders.map Folder.Name ∧
      t.Folders.map Folder.Name = ["playbooks", "inventories", "roles"] ∧
      p.TreeStructure.Folders.get? 0 = t.Folders.get? 0 ∧
      p.TreeStructure.Folders.get? 1 = t.Folders.get? 1 ∧
      (∃ r r0, p.TreeStructure.Folders.get? 2 = some r ∧ t.Folders.get? 2 = some r0 ∧
        r.Name = r0.Name ∧ r.Files = r0.Files ∧
        r.Folders = r0.Folders ++ p.CustomRoles.map (fun x => x.TreeStructure)) ∧
      (∃ extra, p.TreeStructure.Files = t.Files ++ extra ∧ extra.length ≤ 1 ∧
        ∀ f ∈ extra, f.Name = "galaxy-roles.yml") :=
  ⟨by decide,
    assembly_changes_two_places "/work" "demo" "web,db" "community.general" (by decide)⟩

/-- Counterexample to C14 as stated: a project name that goes on, after a line
break, with the one folder `playbooks` and the line `...` gives a template
tree without a folder `roles`; the sub-tree of the custom role `web` is then
added to `playbooks`, which is no longer the `playbooks` of the template. -/
theorem playbooks_changed_counterexample :
    ∃ p t,
      NewAnsibleProject "/work" "demo\nfolders:\n- name: playbooks\n..." "web" "" = .ok p ∧
      getProjectTreeTemplate "demo\nfolders:\n- name: playbooks\n..." = .ok t ∧
      t.Folders = [.mk "playbooks" [] []] ∧
      p.TreeStructure.Folders =
        [.mk "playbooks" [] [(NewAnsibleRole "web").TreeStructure]] ∧
      p.TreeStructure.Folders.map (fun d => d.Folders.length) ≠
        t.Folders.map (fun d => d.Folders.length) ∧
      (∀ d ∈ p.TreeStructure.Folders, d.Name ≠ "roles") :=
  ⟨{ Name := "demo\nfolders:\n- name: playbooks\n..."
     CustomRoles := [NewAnsibleRole "web"]
     GalaxyRoles := []
     TreeStructure := .mk "demo" [] [.mk "playbooks" [] [(NewAnsibleRole "web").TreeStructure]]
     RootDir := "/work" },
    .mk "demo" [] [.mk "playbooks" [] []], rfl, rfl, rfl, rfl, by decide, by decide⟩

/-! ## Splitting and joining -/

theorem join_splitOnChar (sep : Char) (s : List Char) :
    ∃ piece pieces, splitOnChar sep s = piece :: pieces ∧
      piece ++ (pieces.map (fun x => sep :: x)).flatten = s := by
  induction s with
  | nil => exact ⟨[], [], rfl, rfl⟩
  | cons c cs ih =>
    obtain ⟨piece, pieces, hsp, hj⟩ := ih
    by_cases hc : c = sep
    · refine ⟨[], piece :: pieces, by simp [splitOnChar, hc, hsp], ?_⟩
      simp only [List.map_cons, List.flatten_cons, List.nil_append, List.cons_append, hj, hc]
    · refine ⟨c :: piece, pieces, by simp [splitOnChar, hc, hsp], ?_⟩
      simp only [List.cons_append, hj]

theorem intercalate_go_data (acc sep : String) (l : List String) :
    (String.intercalate.go acc sep l).data =
      acc.data ++ (l.map (fun a => sep.data ++ a.data)).flatten := by
  induction l generalizing acc with
  | nil => simp [String.intercalate.go]
  | cons a rest ih =>
    simp only [String.intercalate.go, ih, String.data_append, List.map_cons,
      List.flatten_cons, List.append_assoc]

theorem stringsJoin_splitRoles (s : String) : stringsJoin (splitRoles s) "," = s := by
  by_cases he : s = ""
  · subst he
    rfl
  · rw [splitRoles_of_ne s he]
    obtain ⟨piece, pieces, hsp, hj⟩ := join_splitOnChar ',' s.data
    rw [hsp]
    apply String.ext
    simp only [stringsJoin, List.map_cons, String.intercalate, intercalate_go_data,
      List.map_map]
    rw [← hj]
    rfl

/-- Claim C15: for every string, joining `splitRoles` of it with `,` gives the
string back, and for every non-empty string the number of names is the number
of its commas plus one; names are kept as they stand, empty ones and those
with spaces around them included. -/
theorem splitRoles_join_and_length (s : String) :
    stringsJoin (splitRoles s) "," = s ∧
    (s ≠ "" → (splitRoles s).length = s.data.count ',' + 1) ∧
    splitRoles ",a , b,,c," = ["", "a ", " b", "", "c", ""] :=
  ⟨stringsJoin_splitRoles s, length_splitRoles_of_ne s, by decide⟩

/-! ## The two steps of assembly commute -/

theorem addGalaxyRoles_tree (p : AnsibleProject) (name : String) (files : List File)
    (folders : List Folder) (ht : p.TreeStructure = .mk name files folders) :
    ∃ extra, addGalaxyRoles p = { p with TreeStructure := .mk name (files ++ extra) folders } ∧
      ∀ (q : AnsibleProject) (files2 : List File) (folders2 : List Folder),
        q.GalaxyRoles = p.GalaxyRoles → q.TreeStructure = .mk name files2 folders2 →
          addGalaxyRoles q = { q with TreeStructure := .mk name (files2 ++ extra) folders2 } := by
  obtain ⟨pn, pc, pg, pt, pr⟩ := p
  simp only at ht
  subst ht
  by_cases hpos : pg.length > 0
  · refine ⟨[⟨"galaxy-roles.yml",
      pg.foldl (fun content role => content ++ ("- " ++ role ++ "\n")) "---\n"⟩], ?_, ?_⟩
    · simp only [addGalaxyRoles, if_pos hpos]
    · intro q files2 folders2 hg hq
      obtain ⟨qn, qc, qg, qt, qr⟩ := q
      simp only at hg hq
      subst hg hq
      simp only [addGalaxyRoles, if_pos hpos]
  · refine ⟨[], ?_, ?_⟩
    · simp only [addGalaxyRoles, if_neg hpos, List.append_nil]
    · intro q files2 folders2 hg hq
      obtain ⟨qn, qc, qg, qt, qr⟩ := q
      simp only at hg hq
      subst hg hq
      simp only [addGalaxyRoles, if_neg hpos, List.append_nil]

/-- Claim C16: for every project with at least one top-level folder, adding
the custom roles and then the manifest gives the same project, hence the same
`TreeStructure`, as adding the manifest and then the custom roles; both orders
give a result. -/
theorem addRoles_addGalaxy_commute (p : AnsibleProject)
    (h : p.TreeStructure.Folders ≠ []) :
    ∃ q1 q2,
      addRolesToTreeStructure p = .ok q1 ∧
      addRolesToTreeStructure (addGalaxyRoles p) = .ok q2 ∧
      (addGalaxyRoles q1).TreeStructure = q2.TreeStructure ∧
      addGalaxyRoles q1 = q2 := by
  have hlt := rolesFolderIndex_lt p "roles" h
  cases ht : p.TreeStructure with
  | mk name files folders =>
    rw [ht] at hlt
    simp only [Folder.Folders] at hlt
    cases hg : folders.get? (rolesFolderIndex p "roles") with
    | none =>
      rw [List.get?_eq_none] at hg
      omega
    | some d =>
      cases d with
      | mk rn rf rd =>
        obtain ⟨extra, hp, hq⟩ := addGalaxyRoles_tree p name files folders ht
        have h1 := addRolesToTreeStructure_of_get p name files folders rn rf rd ht hg
        have hidx : rolesFolderIndex (addGalaxyRoles p) "roles" = rolesFolderIndex p "roles" := by
          rw [hp]
          simp only [rolesFolderIndex, ht, Folder.Folders]
        have hg2 : folders.get? (rolesFolderIndex (addGalaxyRoles p) "roles") =
            some (.mk rn rf rd) := by
          rw [hidx]
          exact hg
        have ht2 : (addGalaxyRoles p).TreeStructure = .mk name (files ++ extra) folders := by
          rw [hp]
        have h2 := addRolesToTreeStructure_of_get (addGalaxyRoles p) name (files ++ extra)
          folders rn rf rd ht2 hg2
        obtain ⟨f1, f2, f3, f4⟩ := addGalaxyRoles_frame p
        have key : ∀ q1 q2, addRolesToTreeStructure p = .ok q1 →
            addRolesToTreeStructure (addGalaxyRoles p) = .ok q2 → addGalaxyRoles q1 = q2 := by
          intro q1 q2 e1 e2
          rw [h1] at e1
          rw [h2] at e2
          simp only [Except.ok.injEq] at e1 e2
          subst e1 e2
          have e3 := hq
            ⟨p.Name, p.CustomRoles, p.GalaxyRoles,
              .mk name files (folders.set (rolesFolderIndex p "roles")
                (.mk rn rf (rd ++ p.CustomRoles.map (fun r => r.TreeStructure)))),
              p.RootDir⟩ files _ rfl rfl
          rw [e3]
          simp only [hidx, f1, f2, f3, f4]
        exact ⟨_, _, h1, h2, congrArg AnsibleProject.TreeStructure (key _ _ h1 h2),
          key _ _ h1 h2⟩

/-- Witness of C16: the tree of the template for `demo`, with one custom role
and one galaxy role. -/
theorem addRoles_addGalaxy_commute_witness :
    (AnsibleProject.mk "demo" [NewAnsibleRole "web"] ["community.general"]
      (projectTree "demo" [⟨"ansible.cfg", ""⟩] []) "/work").TreeStructure.Folders ≠ [] ∧
    ∃ q1 q2,
      addRolesToTreeStructure (AnsibleProject.mk "demo" [NewAnsibleRole "web"]
        ["community.general"] (projectTree "demo" [⟨"ansible.cfg", ""⟩] []) "/work") = .ok q1 ∧
      addRolesToTreeStructure (addGalaxyRoles (AnsibleProject.mk "demo" [NewAnsibleRole "web"]
        ["community.general"] (projectTree "demo" [⟨"ansible.cfg", ""⟩] []) "/work")) = .ok q2 ∧
      (addGalaxyRoles q1).TreeStructure = q2.TreeStructure ∧
      addGalaxyRoles q1 = q2 :=
  ⟨by simp [projectTree, Folder.Folders],
    addRoles_addGalaxy_commute _ (by simp [projectTree, Folder.Folders])⟩

end AnsibleGen
